import Mathlib

/-!
Verification of the leaf-and-spine fabric generator and flow-rule
synthesizer (src/extras/leafandspine.py).

The shallow embedding below translates, from the source:
  - the topology builder `LeafAndSpine.__init__` (switch/host/link
    creation order, and the sequential per-node port assignment the
    builder relies on: a node's next port number is the number of links
    already attached to it plus a base of 1 for switches and 0 for
    hosts);
  - `configMulticast` (flood control) and `configUnicast`
    (host rules, multipath rule, spine rules, and the `setMAC` state
    change on hosts), both modelled as emitting a trace of structured
    controller commands in source order;
  - `dumpTopology` (the topology exporter), with the OS interface
    listing passed in as explicit discovery data, and the uncaught
    dictionary-lookup failure on a missing switch-side ifindex modelled
    as an explicit export error.

Switch number n stands for the source name built by the format
expression with argument n (the switch string id), and host number n
for the corresponding host string id; the numeric payloads are exactly
the integers the source feeds into those format strings.
-/

namespace SflowRt

/-- A node of the fabric: switch number n models the switch whose name the
source formats from n, likewise for hosts. -/
inductive Node where
  | sw (n : Nat)
  | host (n : Nat)
deriving DecidableEq

/-- An IPv4 address with mask length, as written by the builder in the
format expression producing a dotted quad with a mask suffix. -/
structure IPv4 where
  o1 : Nat
  o2 : Nat
  o3 : Nat
  o4 : Nat
  maskBits : Nat
deriving DecidableEq

/-- A MAC address as the pair of its two low-order octets; the source
always emits the fixed four high-order octets 00:04:00:00 in front of
them, so this pair carries all the varying information. -/
abbrev Mac := Nat × Nat

/-- A host: numeric id, the IP assigned at construction, and the MAC,
absent until the unicast synthesizer assigns it via setMAC. -/
structure Host where
  name : Nat
  ip : IPv4
  mac : Option Mac
deriving DecidableEq

/-- A link with the two endpoint nodes and their assigned port numbers,
plus the bandwidth attribute (the builder always passes bw=10). -/
structure Link where
  node1 : Node
  port1 : Nat
  node2 : Node
  port2 : Nat
  bw : Nat
deriving DecidableEq

/-- The in-memory fabric: the aggregate the builder produces. -/
structure Fabric where
  switches : List Node := []
  hosts : List Host := []
  links : List Link := []
deriving DecidableEq

/-- Port numbering base: switches start at port 1, hosts at port 0
(the port-assignment rule of the topology library the builder uses). -/
def portBase : Node → Nat
  | .sw _ => 1
  | .host _ => 0

/-- Number of links in a list that have the given node as an endpoint. -/
def linkCount (L : List Link) (n : Node) : Nat :=
  (L.filter (fun l => l.node1 == n || l.node2 == n)).length

/-- Number of links of the fabric attached to a node: determines the
next port number assigned at that node. -/
def Fabric.degree (fab : Fabric) (n : Node) : Nat :=
  linkCount fab.links n

/-- addSwitch: append switch number n. -/
def addSwitch (fab : Fabric) (n : Nat) : Fabric :=
  { fab with switches := fab.switches ++ [Node.sw n] }

/-- addHost: append host number n with its construction-time IP; the MAC
is not set at construction. -/
def addHost (fab : Fabric) (n : Nat) (ip : IPv4) : Fabric :=
  { fab with hosts := fab.hosts ++ [{ name := n, ip := ip, mac := none }] }

/-- addLink: append a link between a and b, assigning each endpoint the
next sequential port number (links so far at the node, plus the base). -/
def addLink (fab : Fabric) (a b : Node) : Fabric :=
  { fab with links := fab.links ++
      [{ node1 := a, port1 := fab.degree a + portBase a,
         node2 := b, port2 := fab.degree b + portBase b, bw := 10 }] }

/-- The loop connecting a fresh leaf switch to every spine, in spine
order (for s in range(spine): addLink(leafSwitch, spines[s])). -/
def addUplinks (spine : Nat) (leafSw : Node) (fab : Fabric) : Fabric :=
  (List.range spine).foldl (fun fab s => addLink fab leafSw (Node.sw (s + 1))) fab

/-- The loop adding the fanout hosts of leaf index ls and linking each to
the leaf switch (for f in range(fanout): addHost; addLink(host, leafSwitch)). -/
def addFanout (fanout ls : Nat) (leafSw : Node) (fab : Fabric) : Fabric :=
  (List.range fanout).foldl (fun fab f =>
    addLink
      (addHost fab (ls * fanout + f + 1)
        { o1 := 10, o2 := 0, o3 := ls, o4 := f + 1, maskBits := 16 })
      (Node.host (ls * fanout + f + 1)) leafSw) fab

/-- One iteration of the leaf loop: add the leaf switch, its uplinks to
every spine, then its fanout hosts. -/
def leafBlock (spine fanout : Nat) (fab : Fabric) (ls : Nat) : Fabric :=
  addFanout fanout ls (Node.sw (spine + ls + 1))
    (addUplinks spine (Node.sw (spine + ls + 1))
      (addSwitch fab (spine + ls + 1)))

/-- The builder: spine switches first, then per leaf index the leaf
switch, uplinks and hosts (LeafAndSpine.__init__). -/
def LeafAndSpine (spine leaf fanout : Nat) : Fabric :=
  (List.range leaf).foldl (leafBlock spine fanout)
    ((List.range spine).foldl (fun fab s => addSwitch fab (s + 1)) {})

/-! Closed forms of the builder result, derived below by induction. -/

/-- The uplink created for leaf index ls and spine index s: leaf-side
port s+1, spine-side port ls+1. -/
def uplinkLink (spine ls s : Nat) : Link :=
  { node1 := Node.sw (spine + ls + 1), port1 := s + 1,
    node2 := Node.sw (s + 1), port2 := ls + 1, bw := 10 }

/-- The host link created for leaf index ls and host index f: host-side
port 0, leaf-side port spine+f+1. -/
def hostLink (spine fanout ls f : Nat) : Link :=
  { node1 := Node.host (ls * fanout + f + 1), port1 := 0,
    node2 := Node.sw (spine + ls + 1), port2 := spine + f + 1, bw := 10 }

/-- All links created while processing leaf index ls: uplinks first,
then host links. -/
def blockLinks (spine fanout ls : Nat) : List Link :=
  (List.range spine).map (uplinkLink spine ls)
    ++ (List.range fanout).map (hostLink spine fanout ls)

/-- Switch list of the built fabric: spines then leaves. -/
def specSwitches (spine leaf : Nat) : List Node :=
  (List.range spine).map (fun s => Node.sw (s + 1))
    ++ (List.range leaf).map (fun ls => Node.sw (spine + ls + 1))

/-- The host created for leaf index ls and host index f. -/
def specHost (fanout ls f : Nat) : Host :=
  { name := ls * fanout + f + 1,
    ip := { o1 := 10, o2 := 0, o3 := ls, o4 := f + 1, maskBits := 16 },
    mac := none }

/-- Host list of the built fabric, in creation order. -/
def specHosts (leaf fanout : Nat) : List Host :=
  (List.range leaf).flatMap (fun ls =>
    (List.range fanout).map (specHost fanout ls))

/-- Link list of the built fabric, in creation order. -/
def specLinks (spine leaf fanout : Nat) : List Link :=
  (List.range leaf).flatMap (blockLinks spine fanout)

example : (LeafAndSpine 1 1 1).switches = [Node.sw 1, Node.sw 2] := by decide

example : (LeafAndSpine 2 1 2).links =
    [uplinkLink 2 0 0, uplinkLink 2 0 1, hostLink 2 2 0 0, hostLink 2 2 0 1] := by
  decide

/-! Counting links at a node. -/

theorem linkCount_append (L M : List Link) (x : Node) :
    linkCount (L ++ M) x = linkCount L x + linkCount M x := by
  simp [linkCount, List.filter_append]

theorem degree_mk (S : List Node) (H : List Host) (L : List Link) (x : Node) :
    Fabric.degree { switches := S, hosts := H, links := L } x = linkCount L x := rfl

theorem linkCount_zero {L : List Link} {x : Node}
    (h : ∀ l ∈ L, l.node1 ≠ x ∧ l.node2 ≠ x) : linkCount L x = 0 := by
  unfold linkCount
  have hf : L.filter (fun l => l.node1 == x || l.node2 == x) = [] := by
    rw [List.filter_eq_nil_iff]
    intro l hl
    rcases h l hl with ⟨h1, h2⟩
    simp [h1, h2]
  rw [hf]
  rfl

theorem linkCount_full {L : List Link} {x : Node}
    (h : ∀ l ∈ L, l.node1 = x ∨ l.node2 = x) : linkCount L x = L.length := by
  unfold linkCount
  have hf : L.filter (fun l => l.node1 == x || l.node2 == x) = L := by
    rw [List.filter_eq_self]
    intro l hl
    rcases h l hl with h1 | h2
    · simp [h1]
    · simp [h2]
  rw [hf]

theorem range_filter_beq {n t : Nat} (h : t < n) :
    (List.range n).filter (fun i => i == t) = [t] := by
  induction n with
  | zero => omega
  | succ m ih =>
    rw [List.range_succ, List.filter_append]
    by_cases hm : t < m
    · rw [ih hm]
      have : (List.filter (fun i => i == t) [m]) = [] := by
        simp
        omega
      rw [this, List.append_nil]
    · have ht : t = m := by omega
      subst ht
      have h0 : (List.range t).filter (fun i => i == t) = [] := by
        rw [List.filter_eq_nil_iff]
        intro a ha
        have := List.mem_range.mp ha
        simp
        omega
      rw [h0]
      simp

/-! Unfolding equations for the closed forms. -/

theorem specLinks_succ (spine leaf fanout : Nat) :
    specLinks spine (leaf + 1) fanout =
      specLinks spine leaf fanout ++ blockLinks spine fanout leaf := by
  unfold specLinks
  rw [List.range_succ, List.flatMap_append]
  simp

theorem specHosts_succ (leaf fanout : Nat) :
    specHosts (leaf + 1) fanout =
      specHosts leaf fanout ++ (List.range fanout).map (specHost fanout leaf) := by
  unfold specHosts
  rw [List.range_succ, List.flatMap_append]
  simp

theorem specSwitches_succ (spine leaf : Nat) :
    specSwitches spine (leaf + 1) =
      specSwitches spine leaf ++ [Node.sw (spine + leaf + 1)] := by
  unfold specSwitches
  rw [List.range_succ, List.map_append, List.append_assoc]
  simp

/-- Membership characterization of the links of the closed form. -/
theorem mem_specLinks {spine leaf fanout : Nat} {l : Link} :
    l ∈ specLinks spine leaf fanout ↔
      ∃ ls, ls < leaf ∧
        ((∃ s, s < spine ∧ l = uplinkLink spine ls s) ∨
         (∃ f, f < fanout ∧ l = hostLink spine fanout ls f)) := by
  unfold specLinks blockLinks
  simp only [List.mem_flatMap, List.mem_append, List.mem_map, List.mem_range]
  constructor
  · rintro ⟨ls, hls, ⟨s, hs, rfl⟩ | ⟨f, hf, rfl⟩⟩
    · exact ⟨ls, hls, Or.inl ⟨s, hs, rfl⟩⟩
    · exact ⟨ls, hls, Or.inr ⟨f, hf, rfl⟩⟩
  · rintro ⟨ls, hls, ⟨s, hs, rfl⟩ | ⟨f, hf, rfl⟩⟩
    · exact ⟨ls, hls, Or.inl ⟨s, hs, rfl⟩⟩
    · exact ⟨ls, hls, Or.inr ⟨f, hf, rfl⟩⟩

/-! The two inner loops of the builder, in closed form. -/

theorem addUplinks_eq (spine : Nat) (lsw : Node) :
    ∀ fab : Fabric, (∀ s, s < spine → Node.sw (s + 1) ≠ lsw) →
    addUplinks spine lsw fab =
      { fab with links := fab.links ++ (List.range spine).map (fun s =>
          { node1 := lsw, port1 := fab.degree lsw + portBase lsw + s,
            node2 := Node.sw (s + 1),
            port2 := fab.degree (Node.sw (s + 1)) + 1, bw := 10 }) } := by
  induction spine with
  | zero =>
    intro fab _
    simp [addUplinks]
  | succ n ih =>
    intro fab h
    have step : addUplinks (n + 1) lsw fab
        = addLink (addUplinks n lsw fab) lsw (Node.sw (n + 1)) := by
      unfold addUplinks
      rw [List.range_succ, List.foldl_append]
      rfl
    rw [step, ih fab (fun s hs => h s (Nat.lt_succ_of_lt hs))]
    have hd1 : Fabric.degree
        { fab with links := fab.links ++ (List.range n).map (fun s =>
            { node1 := lsw, port1 := fab.degree lsw + portBase lsw + s,
              node2 := Node.sw (s + 1),
              port2 := fab.degree (Node.sw (s + 1)) + 1, bw := 10 }) } lsw
        = fab.degree lsw + n := by
      show linkCount _ _ = _
      rw [linkCount_append]
      have : linkCount ((List.range n).map (fun s =>
          ({ node1 := lsw, port1 := fab.degree lsw + portBase lsw + s,
             node2 := Node.sw (s + 1),
             port2 := fab.degree (Node.sw (s + 1)) + 1, bw := 10 } : Link))) lsw
          = n := by
        rw [linkCount_full, List.length_map, List.length_range]
        rintro l hl
        rcases List.mem_map.mp hl with ⟨s, _, rfl⟩
        exact Or.inl rfl
      rw [this]
      rfl
    have hd2 : Fabric.degree
        { fab with links := fab.links ++ (List.range n).map (fun s =>
            { node1 := lsw, port1 := fab.degree lsw + portBase lsw + s,
              node2 := Node.sw (s + 1),
              port2 := fab.degree (Node.sw (s + 1)) + 1, bw := 10 }) }
          (Node.sw (n + 1))
        = fab.degree (Node.sw (n + 1)) := by
      show linkCount _ _ = _
      rw [linkCount_append]
      have : linkCount ((List.range n).map (fun s =>
          ({ node1 := lsw, port1 := fab.degree lsw + portBase lsw + s,
             node2 := Node.sw (s + 1),
             port2 := fab.degree (Node.sw (s + 1)) + 1, bw := 10 } : Link))) (Node.sw (n + 1))
          = 0 := by
        apply linkCount_zero
        rintro l hl
        rcases List.mem_map.mp hl with ⟨s, hs, rfl⟩
        have hs' := List.mem_range.mp hs
        constructor
        · exact fun hc => h n (Nat.lt_succ_self n) hc.symm
        · intro hc
          have : s + 1 = n + 1 := Node.sw.inj hc
          omega
      rw [this]
      rfl
    unfold addLink
    rw [hd1, hd2]
    simp only [Fabric.mk.injEq, true_and]
    have hx : ({ node1 := lsw, port1 := fab.degree lsw + n + portBase lsw,
                 node2 := Node.sw (n + 1),
                 port2 := fab.degree (Node.sw (n + 1)) + portBase (Node.sw (n + 1)),
                 bw := 10 } : Link)
        = { node1 := lsw, port1 := fab.degree lsw + portBase lsw + n,
            node2 := Node.sw (n + 1), port2 := fab.degree (Node.sw (n + 1)) + 1,
            bw := 10 } := by
      have hp : portBase (Node.sw (n + 1)) = 1 := rfl
      have hq : fab.degree lsw + n + portBase lsw
          = fab.degree lsw + portBase lsw + n := by omega
      rw [hp, hq]
    rw [hx, List.range_succ, List.map_append]
    simp

theorem addFanout_aux (base o3v : Nat) (lsw : Node) :
    ∀ (k : Nat) (fab : Fabric),
    (∀ f, f < k → ∀ l ∈ fab.links,
        l.node1 ≠ Node.host (base + f + 1) ∧ l.node2 ≠ Node.host (base + f + 1)) →
    (∀ n, lsw ≠ Node.host n) →
    (List.range k).foldl (fun fab f =>
        addLink
          (addHost fab (base + f + 1)
            { o1 := 10, o2 := 0, o3 := o3v, o4 := f + 1, maskBits := 16 })
          (Node.host (base + f + 1)) lsw) fab
      = { fab with
          hosts := fab.hosts ++ (List.range k).map (fun f =>
            { name := base + f + 1,
              ip := { o1 := 10, o2 := 0, o3 := o3v, o4 := f + 1, maskBits := 16 },
              mac := none }),
          links := fab.links ++ (List.range k).map (fun f =>
            { node1 := Node.host (base + f + 1), port1 := 0,
              node2 := lsw, port2 := fab.degree lsw + portBase lsw + f, bw := 10 }) } := by
  intro k
  induction k with
  | zero =>
    intro fab _ _
    simp
  | succ n ih =>
    intro fab hfresh hlsw
    rw [List.range_succ, List.foldl_append]
    rw [ih fab (fun f hf => hfresh f (Nat.lt_succ_of_lt hf)) hlsw]
    simp only [List.foldl_cons, List.foldl_nil]
    have hdl : linkCount (fab.links ++ (List.range n).map (fun f =>
          ({ node1 := Node.host (base + f + 1), port1 := 0,
             node2 := lsw, port2 := fab.degree lsw + portBase lsw + f, bw := 10 } : Link)))
        lsw = fab.degree lsw + n := by
      rw [linkCount_append]
      have : linkCount ((List.range n).map (fun f =>
          ({ node1 := Node.host (base + f + 1), port1 := 0,
             node2 := lsw, port2 := fab.degree lsw + portBase lsw + f, bw := 10 } : Link)))
          lsw = n := by
        rw [linkCount_full, List.length_map, List.length_range]
        rintro l hl
        rcases List.mem_map.mp hl with ⟨f, _, rfl⟩
        exact Or.inr rfl
      rw [this]
      rfl
    have hdh : linkCount (fab.links ++ (List.range n).map (fun f =>
          ({ node1 := Node.host (base + f + 1), port1 := 0,
             node2 := lsw, port2 := fab.degree lsw + portBase lsw + f, bw := 10 } : Link)))
        (Node.host (base + n + 1)) = 0 := by
      rw [linkCount_append]
      have h1 : linkCount fab.links (Node.host (base + n + 1)) = 0 :=
        linkCount_zero (fun l hl => hfresh n (Nat.lt_succ_self n) l hl)
      have h2 : linkCount ((List.range n).map (fun f =>
          ({ node1 := Node.host (base + f + 1), port1 := 0,
             node2 := lsw, port2 := fab.degree lsw + portBase lsw + f, bw := 10 } : Link)))
          (Node.host (base + n + 1)) = 0 := by
        apply linkCount_zero
        rintro l hl
        rcases List.mem_map.mp hl with ⟨f, hf, rfl⟩
        have hf' := List.mem_range.mp hf
        constructor
        · intro hc
          have : base + f + 1 = base + n + 1 := Node.host.inj hc
          omega
        · exact fun hc => hlsw (base + n + 1) hc
      rw [h1, h2]
    simp only [addLink, addHost, degree_mk]
    rw [hdl, hdh]
    simp only [Fabric.mk.injEq, true_and]
    have hx : ({ node1 := Node.host (base + n + 1),
                 port1 := 0 + portBase (Node.host (base + n + 1)),
                 node2 := lsw, port2 := fab.degree lsw + n + portBase lsw,
                 bw := 10 } : Link)
        = { node1 := Node.host (base + n + 1), port1 := 0,
            node2 := lsw, port2 := fab.degree lsw + portBase lsw + n,
            bw := 10 } := by
      have hp : (0 : Nat) + portBase (Node.host (base + n + 1)) = 0 := rfl
      have hq : fab.degree lsw + n + portBase lsw
          = fab.degree lsw + portBase lsw + n := by omega
      rw [hp, hq]
    rw [hx]
    constructor
    · simp
    · simp

/-! Counting facts about the closed-form link list. -/

theorem hostName_le {ls f leaf fanout : Nat} (h1 : ls < leaf) (h2 : f < fanout) :
    ls * fanout + f + 1 ≤ leaf * fanout := by
  have h3 : ls + 1 ≤ leaf := h1
  have h4 : (ls + 1) * fanout ≤ leaf * fanout := Nat.mul_le_mul_right fanout h3
  have h5 : ls * fanout + f + 1 ≤ (ls + 1) * fanout := by
    rw [Nat.succ_mul]
    omega
  omega

theorem specLinks_count_bigSw {spine leaf fanout m : Nat} (hm : spine + leaf + 1 ≤ m) :
    linkCount (specLinks spine leaf fanout) (Node.sw m) = 0 := by
  apply linkCount_zero
  intro l hl
  rcases mem_specLinks.mp hl with ⟨ls, hls, ⟨s, hs, rfl⟩ | ⟨f, hf, rfl⟩⟩
  · constructor
    · intro hc
      have := Node.sw.inj hc
      omega
    · intro hc
      have := Node.sw.inj hc
      omega
  · constructor
    · intro hc
      exact Node.noConfusion hc
    · intro hc
      have := Node.sw.inj hc
      omega

theorem specLinks_not_host {spine leaf fanout m : Nat} (hm : leaf * fanout < m) :
    ∀ l ∈ specLinks spine leaf fanout, l.node1 ≠ Node.host m ∧ l.node2 ≠ Node.host m := by
  intro l hl
  rcases mem_specLinks.mp hl with ⟨ls, hls, ⟨s, hs, rfl⟩ | ⟨f, hf, rfl⟩⟩
  · exact ⟨fun hc => Node.noConfusion hc, fun hc => Node.noConfusion hc⟩
  · constructor
    · intro hc
      have h1 := Node.host.inj hc
      have h2 := hostName_le hls hf
      omega
    · intro hc
      exact Node.noConfusion hc

theorem blockLinks_count_spineSw {spine fanout ls s : Nat} (hs : s < spine) :
    linkCount (blockLinks spine fanout ls) (Node.sw (s + 1)) = 1 := by
  unfold blockLinks
  rw [linkCount_append]
  have hup : linkCount ((List.range spine).map (uplinkLink spine ls)) (Node.sw (s + 1))
      = 1 := by
    unfold linkCount
    rw [List.filter_map]
    have hcong : (List.range spine).filter
        ((fun l => l.node1 == Node.sw (s + 1) || l.node2 == Node.sw (s + 1))
          ∘ uplinkLink spine ls)
        = (List.range spine).filter (fun t => t == s) := by
      apply List.filter_congr
      intro t ht
      show ((uplinkLink spine ls t).node1 == Node.sw (s + 1)
          || (uplinkLink spine ls t).node2 == Node.sw (s + 1)) = (t == s)
      have h1 : ((uplinkLink spine ls t).node1 == Node.sw (s + 1)) = false := by
        apply beq_eq_false_iff_ne.mpr
        intro hc
        have := Node.sw.inj hc
        omega
      rw [h1, Bool.false_or]
      by_cases hts : t = s
      · subst hts
        simp [uplinkLink]
      · have h2 : ((uplinkLink spine ls t).node2 == Node.sw (s + 1)) = false := by
          apply beq_eq_false_iff_ne.mpr
          intro hc
          have := Node.sw.inj hc
          omega
        rw [h2]
        have h3 : (t == s) = false := beq_eq_false_iff_ne.mpr hts
        rw [h3]
    rw [hcong, range_filter_beq hs]
    rfl
  have hho : linkCount ((List.range fanout).map (hostLink spine fanout ls))
      (Node.sw (s + 1)) = 0 := by
    apply linkCount_zero
    intro l hl
    rcases List.mem_map.mp hl with ⟨f, hf, rfl⟩
    constructor
    · intro hc
      exact Node.noConfusion hc
    · intro hc
      have := Node.sw.inj hc
      omega
  rw [hup, hho]

theorem specLinks_count_spineSw {spine fanout s : Nat} (hs : s < spine) :
    ∀ leaf, linkCount (specLinks spine leaf fanout) (Node.sw (s + 1)) = leaf := by
  intro leaf
  induction leaf with
  | zero =>
    apply linkCount_zero
    intro l hl
    unfold specLinks at hl
    simp at hl
  | succ n ih =>
    rw [specLinks_succ, linkCount_append, ih, blockLinks_count_spineSw hs]

theorem addFanout_eq (fanout ls : Nat) (lsw : Node) (fab : Fabric)
    (hfresh : ∀ f, f < fanout → ∀ l ∈ fab.links,
        l.node1 ≠ Node.host (ls * fanout + f + 1) ∧
        l.node2 ≠ Node.host (ls * fanout + f + 1))
    (hlsw : ∀ n, lsw ≠ Node.host n) :
    addFanout fanout ls lsw fab =
      { fab with
        hosts := fab.hosts ++ (List.range fanout).map (specHost fanout ls),
        links := fab.links ++ (List.range fanout).map (fun f =>
          { node1 := Node.host (ls * fanout + f + 1), port1 := 0,
            node2 := lsw, port2 := fab.degree lsw + portBase lsw + f, bw := 10 }) } := by
  have := addFanout_aux (ls * fanout) ls lsw fanout fab hfresh hlsw
  unfold addFanout
  rw [this]
  rfl

theorem spinesInit_eq (spine : Nat) :
    (List.range spine).foldl (fun fab s => addSwitch fab (s + 1)) {}
      = { switches := (List.range spine).map (fun s => Node.sw (s + 1)),
          hosts := [], links := [] } := by
  induction spine with
  | zero => rfl
  | succ n ih =>
    rw [List.range_succ, List.foldl_append, ih]
    simp [addSwitch]

/-- The builder in closed form: for every parameter triple, the fabric it
constructs is exactly the spec lists of switches, hosts and links. -/
theorem LeafAndSpine_eq (spine fanout leaf : Nat) :
    LeafAndSpine spine leaf fanout =
      { switches := specSwitches spine leaf,
        hosts := specHosts leaf fanout,
        links := specLinks spine leaf fanout } := by
  induction leaf with
  | zero =>
    unfold LeafAndSpine
    rw [List.range_zero, List.foldl_nil, spinesInit_eq]
    unfold specSwitches specHosts specLinks
    simp
  | succ n ih =>
    have step : LeafAndSpine spine (n + 1) fanout
        = leafBlock spine fanout (LeafAndSpine spine n fanout) n := by
      unfold LeafAndSpine
      rw [List.range_succ, List.foldl_append]
      rfl
    rw [step, ih]
    unfold leafBlock
    have hsw : addSwitch
        { switches := specSwitches spine n, hosts := specHosts n fanout,
          links := specLinks spine n fanout } (spine + n + 1)
        = { switches := specSwitches spine n ++ [Node.sw (spine + n + 1)],
            hosts := specHosts n fanout, links := specLinks spine n fanout } := rfl
    rw [hsw]
    rw [addUplinks_eq spine (Node.sw (spine + n + 1))
      { switches := specSwitches spine n ++ [Node.sw (spine + n + 1)],
        hosts := specHosts n fanout, links := specLinks spine n fanout }
      (by
        intro s hs hc
        have := Node.sw.inj hc
        omega)]
    dsimp only
    have e2 : (List.range spine).map (fun s =>
        ({ node1 := Node.sw (spine + n + 1),
           port1 := Fabric.degree
             { switches := specSwitches spine n ++ [Node.sw (spine + n + 1)],
               hosts := specHosts n fanout, links := specLinks spine n fanout }
             (Node.sw (spine + n + 1)) + portBase (Node.sw (spine + n + 1)) + s,
           node2 := Node.sw (s + 1),
           port2 := Fabric.degree
             { switches := specSwitches spine n ++ [Node.sw (spine + n + 1)],
               hosts := specHosts n fanout, links := specLinks spine n fanout }
             (Node.sw (s + 1)) + 1,
           bw := 10 } : Link))
        = (List.range spine).map (uplinkLink spine n) := by
      apply List.map_congr_left
      intro s hs
      have hs' := List.mem_range.mp hs
      have d1 : Fabric.degree
          { switches := specSwitches spine n ++ [Node.sw (spine + n + 1)],
            hosts := specHosts n fanout, links := specLinks spine n fanout }
          (Node.sw (spine + n + 1)) = 0 := by
        rw [degree_mk]
        exact specLinks_count_bigSw (by omega)
      have d2 : Fabric.degree
          { switches := specSwitches spine n ++ [Node.sw (spine + n + 1)],
            hosts := specHosts n fanout, links := specLinks spine n fanout }
          (Node.sw (s + 1)) = n := by
        rw [degree_mk]
        exact specLinks_count_spineSw hs' n
      rw [d1, d2]
      simp only [uplinkLink, Link.mk.injEq, portBase, true_and, and_true]
      omega
    rw [e2]
    rw [addFanout_eq fanout n (Node.sw (spine + n + 1))
      { switches := specSwitches spine n ++ [Node.sw (spine + n + 1)],
        hosts := specHosts n fanout,
        links := specLinks spine n fanout ++ (List.range spine).map (uplinkLink spine n) }
      (by
        intro f hf l hl
        rcases List.mem_append.mp hl with h1 | h2
        · exact specLinks_not_host (by omega) l h1
        · rcases List.mem_map.mp h2 with ⟨s, hs, rfl⟩
          exact ⟨fun hc => Node.noConfusion hc, fun hc => Node.noConfusion hc⟩)
      (by
        intro m hc
        exact Node.noConfusion hc)]
    dsimp only
    have e3 : (List.range fanout).map (fun f =>
        ({ node1 := Node.host (n * fanout + f + 1), port1 := 0,
           node2 := Node.sw (spine + n + 1),
           port2 := Fabric.degree
             { switches := specSwitches spine n ++ [Node.sw (spine + n + 1)],
               hosts := specHosts n fanout,
               links := specLinks spine n fanout
                 ++ (List.range spine).map (uplinkLink spine n) }
             (Node.sw (spine + n + 1)) + portBase (Node.sw (spine + n + 1)) + f,
           bw := 10 } : Link))
        = (List.range fanout).map (hostLink spine fanout n) := by
      have d3 : Fabric.degree
          { switches := specSwitches spine n ++ [Node.sw (spine + n + 1)],
            hosts := specHosts n fanout,
            links := specLinks spine n fanout
              ++ (List.range spine).map (uplinkLink spine n) }
          (Node.sw (spine + n + 1)) = spine := by
        rw [degree_mk, linkCount_append, specLinks_count_bigSw (by omega)]
        have : linkCount ((List.range spine).map (uplinkLink spine n))
            (Node.sw (spine + n + 1)) = spine := by
          rw [linkCount_full, List.length_map, List.length_range]
          intro l hl
          rcases List.mem_map.mp hl with ⟨s, hs, rfl⟩
          exact Or.inl rfl
        rw [this]
        omega
      apply List.map_congr_left
      intro f hf
      rw [d3]
      simp only [hostLink, Link.mk.injEq, portBase, true_and, and_true]
      omega
    rw [e3]
    rw [specSwitches_succ, specHosts_succ, specLinks_succ]
    unfold blockLinks
    simp [List.append_assoc]

/-! Length facts about the built fabric. -/

theorem specHosts_length (leaf fanout : Nat) :
    (specHosts leaf fanout).length = leaf * fanout := by
  induction leaf with
  | zero => simp [specHosts]
  | succ n ih =>
    rw [specHosts_succ, List.length_append, ih, List.length_map, List.length_range,
      Nat.succ_mul]

theorem specSwitches_length (spine leaf : Nat) :
    (specSwitches spine leaf).length = spine + leaf := by
  unfold specSwitches
  rw [List.length_append, List.length_map, List.length_map, List.length_range,
    List.length_range]

/-!
The flow-rule synthesizers.  Each controller invocation of the source
(a mod-port or add-flow call) is modelled as one structured command;
the synthesizers return the list of commands in emission order.
-/

/-- The attribute string passed by the flood-control loop. -/
def nofloodAttr : String := "noflood"

/-- Match predicate of an emitted flow rule. -/
inductive FlowMatch where
  /-- The multicast/locally-administered destination-bit match the
  source writes as a destination mask pair of identical constants. -/
  | multicastBit
  /-- Exact destination-MAC match. -/
  | dstMac (mac : Mac)
  /-- No match field (matches everything). -/
  | any
deriving DecidableEq

/-- Action of an emitted flow rule. -/
inductive FlowAction where
  /-- Flood on all non-disabled ports. -/
  | flood
  /-- Output on one port. -/
  | output (port : Nat)
  /-- The symmetric-l4 hash bundle over the slave port list (the
  multipath action, with its numeric bundle basis argument). -/
  | bundle (basis : Nat) (slaves : List Nat)
deriving DecidableEq

/-- A flow rule as emitted: match, priority, action. -/
structure FlowRule where
  fmatch : FlowMatch
  priority : Nat
  action : FlowAction
deriving DecidableEq

/-- One controller command: a port-attribute change or a flow addition,
addressed to switch number n. -/
inductive Cmd where
  | modPort (switch : Nat) (port : Nat) (attr : String)
  | addFlow (switch : Nat) (rule : FlowRule)
deriving DecidableEq

/-- The slave list of the multipath bundle: the literal 1, then, when
spine exceeds 1, each port in range(2, spine+1) appended in order. -/
def slavesList (spine : Nat) : List Nat :=
  if spine > 1 then [1] ++ List.range' 2 (spine - 1) else [1]

/-- configMulticast: per leaf switch, disable flood on uplink ports
range(2, spine+1), then add the multicast flood rule at priority 400;
then add the same flood rule on every spine switch. -/
def configMulticast (spine leaf fanout : Nat) : List Cmd :=
  let cmds := (List.range leaf).foldl (fun cmds ls =>
    ((List.range' 2 (spine - 1)).foldl (fun cmds p =>
        cmds ++ [Cmd.modPort (spine + ls + 1) p nofloodAttr]) cmds)
      ++ [Cmd.addFlow (spine + ls + 1)
            { fmatch := .multicastBit, priority := 400, action := .flood }]) []
  (List.range spine).foldl (fun cmds s =>
    cmds ++ [Cmd.addFlow (s + 1)
      { fmatch := .multicastBit, priority := 400, action := .flood }]) cmds

/-- The per-host effect of setMAC: set the mac of the host with the
given numeric id, leave every other host unchanged. -/
def updOne (n : Nat) (m : Mac) (h : Host) : Host :=
  if h.name = n then { h with mac := some m } else h

/-- setMAC on the host with the given numeric id: update its mac field. -/
def setMac (fab : Fabric) (n : Nat) (m : Mac) : Fabric :=
  { fab with hosts := fab.hosts.map (updOne n m) }

/-- configUnicast: per leaf index and host index, set the host MAC, add
the local exact-match rule (priority 500, output on port f+1+spine), add
the multipath bundle rule (priority 300, basis ls+1), and add the
exact-match rule on every spine switch (priority 500, output ls+1).
Returns the fabric after the setMAC calls together with the command
trace. -/
def configUnicast (spine leaf fanout : Nat) (fab : Fabric) : Fabric × List Cmd :=
  (List.range leaf).foldl (fun acc ls =>
    (List.range fanout).foldl (fun acc f =>
      (setMac acc.1 (ls * fanout + f + 1) (ls, f + 1),
       acc.2
         ++ [Cmd.addFlow (spine + ls + 1)
               { fmatch := .dstMac (ls, f + 1), priority := 500,
                 action := .output (f + 1 + spine) },
             Cmd.addFlow (spine + ls + 1)
               { fmatch := .any, priority := 300,
                 action := .bundle (ls + 1) (slavesList spine) }]
         ++ (List.range spine).map (fun s =>
               Cmd.addFlow (s + 1)
                 { fmatch := .dstMac (ls, f + 1), priority := 500,
                   action := .output (ls + 1) }))) acc) (fab, [])

/-! Generic shapes of command-emitting loops. -/

theorem foldl_emit {α τ : Type} (g : α → List τ) :
    ∀ (l : List α) (init : List τ),
    l.foldl (fun acc i => acc ++ g i) init = init ++ l.flatMap g := by
  intro l
  induction l with
  | nil =>
    intro init
    simp
  | cons x xs ih =>
    intro init
    rw [List.foldl_cons, ih, List.flatMap_cons, List.append_assoc]

theorem foldl_pair_emit {α σ τ : Type} (u : α → σ → σ) (g : α → List τ) :
    ∀ (l : List α) (st : σ) (acc : List τ),
    l.foldl (fun p i => (u i p.1, p.2 ++ g i)) (st, acc)
      = (l.foldl (fun s i => u i s) st, acc ++ l.flatMap g) := by
  intro l
  induction l with
  | nil =>
    intro st acc
    simp
  | cons x xs ih =>
    intro st acc
    rw [List.foldl_cons, List.foldl_cons, ih, List.flatMap_cons, List.append_assoc]

theorem flatMap_single {α τ : Type} (f : α → τ) (l : List α) :
    l.flatMap (fun x => [f x]) = l.map f := by
  induction l with
  | nil => rfl
  | cons x xs ih =>
    rw [List.flatMap_cons, ih]
    rfl

/-! Closed form of the flood-control synthesizer. -/

/-- Commands of configMulticast for one leaf switch: the noflood
commands for ports 2..spine, then the flood rule. -/
def mcastBlock (spine ls : Nat) : List Cmd :=
  (List.range' 2 (spine - 1)).map (fun p => Cmd.modPort (spine + ls + 1) p nofloodAttr)
    ++ [Cmd.addFlow (spine + ls + 1)
          { fmatch := .multicastBit, priority := 400, action := .flood }]

theorem configMulticast_eq (spine leaf fanout : Nat) :
    configMulticast spine leaf fanout =
      (List.range leaf).flatMap (mcastBlock spine)
        ++ (List.range spine).map (fun s =>
             Cmd.addFlow (s + 1)
               { fmatch := .multicastBit, priority := 400, action := .flood }) := by
  unfold configMulticast
  have hloop : ∀ (l : List Nat) (init : List Cmd),
      l.foldl (fun cmds ls =>
        ((List.range' 2 (spine - 1)).foldl (fun cmds p =>
            cmds ++ [Cmd.modPort (spine + ls + 1) p nofloodAttr]) cmds)
          ++ [Cmd.addFlow (spine + ls + 1)
                { fmatch := .multicastBit, priority := 400, action := .flood }]) init
      = init ++ l.flatMap (mcastBlock spine) := by
    intro l
    induction l with
    | nil =>
      intro init
      simp
    | cons x xs ih =>
      intro init
      rw [List.foldl_cons, ih, List.flatMap_cons]
      rw [foldl_emit, flatMap_single]
      unfold mcastBlock
      simp [List.append_assoc]
  rw [hloop, foldl_emit, flatMap_single]
  simp

/-! Closed form of the unicast/multipath synthesizer. -/

/-- Commands of configUnicast for one (leaf index, host index) pair: the
local host rule, the multipath rule, then one rule per spine switch. -/
def ucastHostCmds (spine fanout ls f : Nat) : List Cmd :=
  [Cmd.addFlow (spine + ls + 1)
     { fmatch := .dstMac (ls, f + 1), priority := 500,
       action := .output (f + 1 + spine) },
   Cmd.addFlow (spine + ls + 1)
     { fmatch := .any, priority := 300,
       action := .bundle (ls + 1) (slavesList spine) }]
    ++ (List.range spine).map (fun s =>
         Cmd.addFlow (s + 1)
           { fmatch := .dstMac (ls, f + 1), priority := 500,
             action := .output (ls + 1) })

/-- The full command trace of configUnicast. -/
def ucastCmds (spine leaf fanout : Nat) : List Cmd :=
  (List.range leaf).flatMap (fun ls =>
    (List.range fanout).flatMap (ucastHostCmds spine fanout ls))

/-- The state effect of configUnicast: the nested setMAC loop. -/
def macAssign (leaf fanout : Nat) (fab : Fabric) : Fabric :=
  (List.range leaf).foldl (fun fab ls =>
    (List.range fanout).foldl (fun fab f =>
      setMac fab (ls * fanout + f + 1) (ls, f + 1)) fab) fab

theorem configUnicast_eq (spine leaf fanout : Nat) (fab : Fabric) :
    configUnicast spine leaf fanout fab
      = (macAssign leaf fanout fab, ucastCmds spine leaf fanout) := by
  unfold configUnicast ucastCmds macAssign
  have hinner : ∀ (ls : Nat) (acc : Fabric × List Cmd),
      (List.range fanout).foldl (fun acc f =>
        (setMac acc.1 (ls * fanout + f + 1) (ls, f + 1),
         acc.2
           ++ [Cmd.addFlow (spine + ls + 1)
                 { fmatch := .dstMac (ls, f + 1), priority := 500,
                   action := .output (f + 1 + spine) },
               Cmd.addFlow (spine + ls + 1)
                 { fmatch := .any, priority := 300,
                   action := .bundle (ls + 1) (slavesList spine) }]
           ++ (List.range spine).map (fun s =>
                 Cmd.addFlow (s + 1)
                   { fmatch := .dstMac (ls, f + 1), priority := 500,
                     action := .output (ls + 1) }))) acc
      = ((List.range fanout).foldl (fun fab f =>
            setMac fab (ls * fanout + f + 1) (ls, f + 1)) acc.1,
         acc.2 ++ (List.range fanout).flatMap (ucastHostCmds spine fanout ls)) := by
    intro ls acc
    have hb : ∀ (acc : Fabric × List Cmd) (f : Nat),
        (setMac acc.1 (ls * fanout + f + 1) (ls, f + 1),
         acc.2
           ++ [Cmd.addFlow (spine + ls + 1)
                 { fmatch := .dstMac (ls, f + 1), priority := 500,
                   action := .output (f + 1 + spine) },
               Cmd.addFlow (spine + ls + 1)
                 { fmatch := .any, priority := 300,
                   action := .bundle (ls + 1) (slavesList spine) }]
           ++ (List.range spine).map (fun s =>
                 Cmd.addFlow (s + 1)
                   { fmatch := .dstMac (ls, f + 1), priority := 500,
                     action := .output (ls + 1) }))
        = (setMac acc.1 (ls * fanout + f + 1) (ls, f + 1),
           acc.2 ++ ucastHostCmds spine fanout ls f) := by
      intro acc f
      unfold ucastHostCmds
      rw [List.append_assoc]
    have h1 : (List.range fanout).foldl (fun acc f =>
        (setMac acc.1 (ls * fanout + f + 1) (ls, f + 1),
         acc.2
           ++ [Cmd.addFlow (spine + ls + 1)
                 { fmatch := .dstMac (ls, f + 1), priority := 500,
                   action := .output (f + 1 + spine) },
               Cmd.addFlow (spine + ls + 1)
                 { fmatch := .any, priority := 300,
                   action := .bundle (ls + 1) (slavesList spine) }]
           ++ (List.range spine).map (fun s =>
                 Cmd.addFlow (s + 1)
                   { fmatch := .dstMac (ls, f + 1), priority := 500,
                     action := .output (ls + 1) }))) acc
        = (List.range fanout).foldl (fun acc f =>
            (setMac acc.1 (ls * fanout + f + 1) (ls, f + 1),
             acc.2 ++ ucastHostCmds spine fanout ls f)) acc :=
      List.foldl_ext _ _ acc (fun a b _ => hb a b)
    rw [h1]
    have h2 := foldl_pair_emit
      (fun f fab => setMac fab (ls * fanout + f + 1) (ls, f + 1))
      (ucastHostCmds spine fanout ls) (List.range fanout) acc.1 acc.2
    exact h2
  have houter : ∀ (l : List Nat) (acc : Fabric × List Cmd),
      l.foldl (fun acc ls =>
        (List.range fanout).foldl (fun acc f =>
          (setMac acc.1 (ls * fanout + f + 1) (ls, f + 1),
           acc.2
             ++ [Cmd.addFlow (spine + ls + 1)
                   { fmatch := .dstMac (ls, f + 1), priority := 500,
                     action := .output (f + 1 + spine) },
                 Cmd.addFlow (spine + ls + 1)
                   { fmatch := .any, priority := 300,
                     action := .bundle (ls + 1) (slavesList spine) }]
             ++ (List.range spine).map (fun s =>
                   Cmd.addFlow (s + 1)
                     { fmatch := .dstMac (ls, f + 1), priority := 500,
                       action := .output (ls + 1) }))) acc) acc
      = (l.foldl (fun fab ls =>
            (List.range fanout).foldl (fun fab f =>
              setMac fab (ls * fanout + f + 1) (ls, f + 1)) fab) acc.1,
         acc.2 ++ l.flatMap (fun ls =>
            (List.range fanout).flatMap (ucastHostCmds spine fanout ls))) := by
    intro l
    induction l with
    | nil =>
      intro acc
      simp
    | cons x xs ih =>
      intro acc
      rw [List.foldl_cons, hinner x acc, ih, List.foldl_cons, List.flatMap_cons,
        List.append_assoc]
  rw [houter (List.range leaf) (fab, [])]
  rw [show ([] : List Cmd) ++ _ = _ from List.nil_append _]

/-! The state effect of configUnicast in pointwise form. -/

/-- The per-host composite of all setMAC updates of configUnicast. -/
def updAll (leaf fanout : Nat) (h : Host) : Host :=
  (List.range leaf).foldl (fun h ls =>
    (List.range fanout).foldl (fun h f =>
      updOne (ls * fanout + f + 1) (ls, f + 1) h) h) h

theorem updOne_of_ne {n : Nat} {m : Mac} {h : Host} (hne : h.name ≠ n) :
    updOne n m h = h := by
  unfold updOne
  rw [if_neg hne]

theorem updOne_name_ip (n : Nat) (m : Mac) (h : Host) :
    (updOne n m h).name = h.name ∧ (updOne n m h).ip = h.ip := by
  unfold updOne
  split
  · exact ⟨rfl, rfl⟩
  · exact ⟨rfl, rfl⟩

theorem fabric_hosts_fold {β : Type} (g : β → Host → Host) :
    ∀ (l : List β) (fab : Fabric),
    l.foldl (fun fab i => { fab with hosts := fab.hosts.map (g i) }) fab
      = { fab with hosts := fab.hosts.map (fun h =>
            l.foldl (fun h i => g i h) h) } := by
  intro l
  induction l with
  | nil =>
    intro fab
    simp
  | cons x xs ih =>
    intro fab
    rw [List.foldl_cons, ih]
    simp only [Fabric.mk.injEq, true_and, and_true, List.map_map]
    apply List.map_congr_left
    intro h _
    rfl

theorem macAssign_eq (leaf fanout : Nat) (fab : Fabric) :
    macAssign leaf fanout fab
      = { fab with hosts := fab.hosts.map (updAll leaf fanout) } := by
  unfold macAssign updAll
  have hin : ∀ (ls : Nat) (fab : Fabric),
      (List.range fanout).foldl (fun fab f =>
        setMac fab (ls * fanout + f + 1) (ls, f + 1)) fab
      = { fab with hosts := fab.hosts.map (fun h =>
            (List.range fanout).foldl (fun h f =>
              updOne (ls * fanout + f + 1) (ls, f + 1) h) h) } := by
    intro ls fab
    exact fabric_hosts_fold (fun f => updOne (ls * fanout + f + 1) (ls, f + 1))
      (List.range fanout) fab
  have hstep : ∀ (fab : Fabric) (ls : Nat), ls ∈ List.range leaf →
      (List.range fanout).foldl (fun fab f =>
        setMac fab (ls * fanout + f + 1) (ls, f + 1)) fab
      = { fab with hosts := fab.hosts.map (fun h =>
            (List.range fanout).foldl (fun h f =>
              updOne (ls * fanout + f + 1) (ls, f + 1) h) h) } :=
    fun fab ls _ => hin ls fab
  rw [List.foldl_ext _ _ fab hstep]
  exact fabric_hosts_fold (fun ls h =>
    (List.range fanout).foldl (fun h f =>
      updOne (ls * fanout + f + 1) (ls, f + 1) h) h) (List.range leaf) fab

/-- A chain of updOne steps whose target names all miss the host leaves
it unchanged. -/
theorem foldl_upd_id (nm : Nat → Nat) (mc : Nat → Mac) :
    ∀ (l : List Nat) (h : Host), (∀ i ∈ l, nm i ≠ h.name) →
    l.foldl (fun h i => updOne (nm i) (mc i) h) h = h := by
  intro l
  induction l with
  | nil =>
    intro h _
    rfl
  | cons x xs ih =>
    intro h hne
    rw [List.foldl_cons,
      updOne_of_ne (fun hc => hne x (List.mem_cons_self x xs) hc.symm)]
    exact ih h (fun i hi => hne i (List.mem_cons_of_mem x hi))

/-- The inner setMAC fold, generalized over the name base, applied to
the host whose name matches iteration f: sets exactly that mac. -/
theorem updFold_at (base ls : Nat) :
    ∀ (k f : Nat) (h : Host), f < k → h.name = base + f + 1 →
    (List.range k).foldl (fun h g => updOne (base + g + 1) (ls, g + 1) h) h
      = { h with mac := some (ls, f + 1) } := by
  intro k
  induction k with
  | zero =>
    intro f h hf _
    omega
  | succ n ih =>
    intro f h hf hname
    rw [List.range_succ, List.foldl_append, List.foldl_cons, List.foldl_nil]
    by_cases hfn : f < n
    · rw [ih f h hfn hname]
      apply updOne_of_ne
      show ({ h with mac := some (ls, f + 1) } : Host).name ≠ base + n + 1
      rw [show ({ h with mac := some (ls, f + 1) } : Host).name = h.name from rfl, hname]
      omega
    · have hfe : f = n := by omega
      subst hfe
      rw [foldl_upd_id (fun g => base + g + 1) (fun g => (ls, g + 1)) (List.range f) h
        (by
          intro i hi
          have := List.mem_range.mp hi
          show base + i + 1 ≠ h.name
          rw [hname]
          omega)]
      unfold updOne
      rw [if_pos hname]

theorem updAll_id (fanout : Nat) :
    ∀ (k : Nat) (h : Host),
    (∀ ls g, ls < k → g < fanout → ls * fanout + g + 1 ≠ h.name) →
    updAll k fanout h = h := by
  intro k
  induction k with
  | zero =>
    intro h _
    rfl
  | succ n ih =>
    intro h hne
    unfold updAll
    rw [List.range_succ, List.foldl_append, List.foldl_cons, List.foldl_nil]
    have hpre : updAll n fanout h = h :=
      ih h (fun ls g hls hg => hne ls g (Nat.lt_succ_of_lt hls) hg)
    unfold updAll at hpre
    rw [hpre]
    exact foldl_upd_id (fun g => n * fanout + g + 1) (fun g => (n, g + 1))
      (List.range fanout) h
      (fun g hg => hne n g (Nat.lt_succ_self n) (List.mem_range.mp hg))

theorem updAll_at {fanout ls f : Nat} (hf : f < fanout) :
    ∀ leaf, ls < leaf → ∀ (h : Host), h.name = ls * fanout + f + 1 →
    updAll leaf fanout h = { h with mac := some (ls, f + 1) } := by
  intro leaf
  induction leaf with
  | zero =>
    intro h0
    omega
  | succ n ih =>
    intro hls h hname
    unfold updAll
    rw [List.range_succ, List.foldl_append, List.foldl_cons, List.foldl_nil]
    by_cases hlsn : ls < n
    · have hpre := ih hlsn h hname
      unfold updAll at hpre
      rw [hpre]
      apply foldl_upd_id (fun g => n * fanout + g + 1) (fun g => (n, g + 1))
      intro g hg
      have hg' := List.mem_range.mp hg
      rw [show ({ h with mac := some (ls, f + 1) } : Host).name = h.name from rfl, hname]
      have := hostName_le hlsn hf
      omega
    · have hlse : ls = n := by omega
      subst hlse
      have hpre : (List.range ls).foldl (fun h ls =>
          (List.range fanout).foldl (fun h f =>
            updOne (ls * fanout + f + 1) (ls, f + 1) h) h) h = h := by
        have := updAll_id fanout ls h (by
          intro ls' g hls' hg hc
          have h1 := hostName_le hls' hg
          rw [hname] at hc
          omega)
        unfold updAll at this
        exact this
      rw [hpre]
      have := updFold_at (ls * fanout) ls fanout f h hf hname
      exact this

theorem fold_preserves_nameip {β : Type} (g : β → Host → Host)
    (hg : ∀ i h, (g i h).name = h.name ∧ (g i h).ip = h.ip) :
    ∀ (l : List β) (h : Host),
    (l.foldl (fun h i => g i h) h).name = h.name
      ∧ (l.foldl (fun h i => g i h) h).ip = h.ip := by
  intro l
  induction l with
  | nil =>
    intro h
    exact ⟨rfl, rfl⟩
  | cons x xs ih =>
    intro h
    rw [List.foldl_cons]
    rcases ih (g x h) with ⟨h1, h2⟩
    rcases hg x h with ⟨h3, h4⟩
    exact ⟨h1.trans h3, h2.trans h4⟩

theorem updAll_name_ip (leaf fanout : Nat) (h : Host) :
    (updAll leaf fanout h).name = h.name ∧ (updAll leaf fanout h).ip = h.ip := by
  unfold updAll
  exact fold_preserves_nameip
    (fun ls h => (List.range fanout).foldl (fun h f =>
      updOne (ls * fanout + f + 1) (ls, f + 1) h) h)
    (fun ls h => fold_preserves_nameip
      (fun f h => updOne (ls * fanout + f + 1) (ls, f + 1) h)
      (fun f h => updOne_name_ip (ls * fanout + f + 1) (ls, f + 1) h)
      (List.range fanout) h)
    (List.range leaf) h

/-- The hosts of the built fabric after configUnicast ran on it: every
host carries its deterministic MAC. -/
theorem configUnicast_hosts (spine leaf fanout : Nat) :
    ((configUnicast spine leaf fanout (LeafAndSpine spine leaf fanout)).1).hosts
      = (List.range leaf).flatMap (fun ls => (List.range fanout).map (fun f =>
          { name := ls * fanout + f + 1,
            ip := { o1 := 10, o2 := 0, o3 := ls, o4 := f + 1, maskBits := 16 },
            mac := some (ls, f + 1) })) := by
  rw [LeafAndSpine_eq, configUnicast_eq, macAssign_eq]
  show (specHosts leaf fanout).map (updAll leaf fanout) = _
  unfold specHosts
  rw [List.map_flatMap]
  apply List.flatMap_congr
  intro ls hls
  rw [List.map_map]
  apply List.map_congr_left
  intro f hf
  show updAll leaf fanout (specHost fanout ls f) = _
  rw [updAll_at (List.mem_range.mp hf) leaf (List.mem_range.mp hls)
    (specHost fanout ls f) rfl]
  rfl

/-!
The topology exporter (dumpTopology).  The OS interface listing is
passed in as discovery data: one record per discovered switch-side
interface, carrying the owning switch, the port number the interface
name encodes, and the ifindex read for it.  The uncaught dictionary
lookup failure the source hits when a switch-side interface of a
switch-to-switch link was not discovered is modelled as the export
error below.
-/

/-- Failure of the export step: a switch-facing link endpoint had no
discovered ifindex (the lookup in the per-node ports table fails). -/
inductive ExportError where
  | TopologyExportIncomplete
deriving DecidableEq

/-- A discovered interface: owning switch, port number, ifindex. -/
structure PortRec where
  owner : Node
  port : Nat
  ifindex : Nat
deriving DecidableEq

/-- A node record of the exported snapshot. -/
structure NodeRec where
  name : Node
  agent : String
  ports : List PortRec
  tag : Option String
deriving DecidableEq

/-- A link record of the exported snapshot. -/
structure LinkRec where
  node1 : Node
  port1 : Nat
  ifindex1 : Nat
  node2 : Node
  port2 : Nat
  ifindex2 : Nat
deriving DecidableEq

/-- The exported snapshot: node records and link records. -/
structure TopoData where
  nodes : List NodeRec
  links : List LinkRec
deriving DecidableEq

/-- The tag value written on edge switches. -/
def edgeTag : String := "edge"

/-- connectionsTo: the connections between two nodes, as pairs of the
a-side and b-side port numbers, in link-creation order. -/
def connectionsTo (fab : Fabric) (a b : Node) : List (Nat × Nat) :=
  fab.links.filterMap (fun l =>
    if l.node1 = a ∧ l.node2 = b then some (l.port1, l.port2)
    else if l.node1 = b ∧ l.node2 = a then some (l.port2, l.port1)
    else none)

/-- Lookup of the ifindex recorded for port p of switch s: find the
entry in the per-node ports table built from the discovery data. -/
def epLookup (disc : List PortRec) (s : Node) (p : Nat) : Option Nat :=
  ((disc.filter (fun e => e.owner == s)).find? (fun e => e.port == p)).map
    (fun e => e.ifindex)

/-- The link records for the connections between one switch pair; a
missing endpoint ifindex aborts the export. -/
def connRecs (disc : List PortRec) (s1 s2 : Node) :
    List (Nat × Nat) → Except ExportError (List LinkRec)
  | [] => Except.ok []
  | c :: rest =>
    match epLookup disc s1 c.1 with
    | none => Except.error ExportError.TopologyExportIncomplete
    | some i1 =>
      match epLookup disc s2 c.2 with
      | none => Except.error ExportError.TopologyExportIncomplete
      | some i2 =>
        match connRecs disc s1 s2 rest with
        | Except.error e => Except.error e
        | Except.ok r => Except.ok
            ({ node1 := s1, port1 := c.1, ifindex1 := i1,
               node2 := s2, port2 := c.2, ifindex2 := i2 } :: r)

/-- The ordered switch pairs the link loop scans: indices i, j over the
switch list with j greater than i. -/
def switchPairs (switches : List Node) : List (Node × Node) :=
  switches.enum.flatMap (fun a => switches.enum.flatMap (fun b =>
    if a.1 < b.1 then [(a.2, b.2)] else []))

/-- The link records over all scanned switch pairs. -/
def buildLinkRecs (fab : Fabric) (disc : List PortRec) :
    List (Node × Node) → Except ExportError (List LinkRec)
  | [] => Except.ok []
  | (s1, s2) :: rest =>
    match connRecs disc s1 s2 (connectionsTo fab s1 s2) with
    | Except.error e => Except.error e
    | Except.ok c =>
      match buildLinkRecs fab disc rest with
      | Except.error e => Except.error e
      | Except.ok r => Except.ok (c ++ r)

/-- The initial node records: one per switch, with the discovered ports
owned by it, the agent, and no tag. -/
def baseNodes (fab : Fabric) (disc : List PortRec) (agent : String) : List NodeRec :=
  fab.switches.map (fun s =>
    { name := s, agent := agent,
      ports := disc.filter (fun e => e.owner == s), tag := none })

/-- Write the edge tag on the record of switch s. -/
def setTag (nodes : List NodeRec) (s : Node) : List NodeRec :=
  nodes.map (fun r => if r.name = s then { r with tag := some edgeTag } else r)

/-- The edge-tagging loop: for every host and every switch, tag the
switch when the host has a connection to it. -/
def tagEdges (fab : Fabric) (nodes : List NodeRec) : List NodeRec :=
  fab.hosts.foldl (fun nodes h =>
    fab.switches.foldl (fun nodes s =>
      if connectionsTo fab (Node.host h.name) s ≠ [] then setTag nodes s
      else nodes) nodes) nodes

/-- dumpTopology: build the node records, scan the switch pairs for
link records (failing on a missing ifindex), tag the edge switches, and
return the snapshot. -/
def dumpTopology (fab : Fabric) (disc : List PortRec) (agent : String) :
    Except ExportError TopoData :=
  match buildLinkRecs fab disc (switchPairs fab.switches) with
  | Except.error e => Except.error e
  | Except.ok lrecs =>
      Except.ok { nodes := tagEdges fab (baseNodes fab disc agent), links := lrecs }

/-! Pointwise characterization of the edge-tagging loop. -/

theorem tagInner (fab : Fabric) (hn : Nat) :
    ∀ (sws : List Node) (nodes : List NodeRec),
    sws.foldl (fun nodes s =>
      if connectionsTo fab (Node.host hn) s ≠ [] then setTag nodes s else nodes) nodes
      = nodes.map (fun r =>
          if r.name ∈ sws ∧ connectionsTo fab (Node.host hn) r.name ≠ []
          then { r with tag := some edgeTag } else r) := by
  intro sws
  induction sws with
  | nil =>
    intro nodes
    simp
  | cons s rest ih =>
    intro nodes
    rw [List.foldl_cons]
    by_cases hc : connectionsTo fab (Node.host hn) s ≠ []
    · rw [if_pos hc, ih]
      unfold setTag
      rw [List.map_map]
      apply List.map_congr_left
      intro r _
      dsimp only [Function.comp]
      by_cases hrs : r.name = s
      · rw [if_pos hrs]
        have hcr : connectionsTo fab (Node.host hn) r.name ≠ [] := by
          rw [hrs]
          exact hc
        by_cases h2 : r.name ∈ rest ∧ connectionsTo fab (Node.host hn) r.name ≠ []
        · rw [if_pos (show ({ r with tag := some edgeTag } : NodeRec).name ∈ rest ∧ _ from h2),
            if_pos ⟨List.mem_cons.mpr (Or.inl hrs), hcr⟩]
        · rw [if_neg (show ¬(({ r with tag := some edgeTag } : NodeRec).name ∈ rest ∧ _) from h2),
            if_pos ⟨List.mem_cons.mpr (Or.inl hrs), hcr⟩]
      · rw [if_neg hrs]
        by_cases h2 : r.name ∈ rest ∧ connectionsTo fab (Node.host hn) r.name ≠ []
        · rw [if_pos h2, if_pos ⟨List.mem_cons.mpr (Or.inr h2.1), h2.2⟩]
        · rw [if_neg h2, if_neg (by
            intro hcon
            rcases hcon with ⟨hm, hcn⟩
            rcases List.mem_cons.mp hm with h3 | h3
            · exact hrs h3
            · exact h2 ⟨h3, hcn⟩)]
    · rw [if_neg hc, ih]
      apply List.map_congr_left
      intro r _
      by_cases hrs : r.name = s
      · have hcr : connectionsTo fab (Node.host hn) r.name = [] := by
          rw [hrs]
          exact not_not.mp hc
        rw [if_neg (by

            intro hcon
            exact hcon.2 hcr),
          if_neg (by
            intro hcon
            exact hcon.2 hcr)]
      · by_cases h2 : r.name ∈ rest ∧ connectionsTo fab (Node.host hn) r.name ≠ []
        · rw [if_pos h2, if_pos ⟨List.mem_cons.mpr (Or.inr h2.1), h2.2⟩]
        · rw [if_neg h2, if_neg (by
            intro hcon
            rcases hcon with ⟨hm, hcn⟩
            rcases List.mem_cons.mp hm with h3 | h3
            · exact hrs h3
            · exact h2 ⟨h3, hcn⟩)]

theorem tagEdges_eq (fab : Fabric) :
    ∀ (hs : List Host) (nodes : List NodeRec),
    hs.foldl (fun nodes h =>
      fab.switches.foldl (fun nodes s =>
        if connectionsTo fab (Node.host h.name) s ≠ [] then setTag nodes s
        else nodes) nodes) nodes
      = nodes.map (fun r =>
          if ∃ hh ∈ hs, r.name ∈ fab.switches
              ∧ connectionsTo fab (Node.host hh.name) r.name ≠ []
          then { r with tag := some edgeTag } else r) := by
  intro hs
  induction hs with
  | nil =>
    intro nodes
    simp
  | cons h rest ih =>
    intro nodes
    rw [List.foldl_cons, tagInner fab h.name fab.switches nodes, ih, List.map_map]
    apply List.map_congr_left
    intro r _
    dsimp only [Function.comp]
    by_cases h1 : r.name ∈ fab.switches ∧ connectionsTo fab (Node.host h.name) r.name ≠ []
    · rw [if_pos h1]
      have hex : ∃ hh ∈ h :: rest, r.name ∈ fab.switches
          ∧ connectionsTo fab (Node.host hh.name) r.name ≠ [] :=
        ⟨h, List.mem_cons_self h rest, h1⟩
      rw [if_pos hex]
      by_cases h2 : ∃ hh ∈ rest, ({ r with tag := some edgeTag } : NodeRec).name ∈ fab.switches
          ∧ connectionsTo fab (Node.host hh.name)
              ({ r with tag := some edgeTag } : NodeRec).name ≠ []
      · rw [if_pos h2]
      · rw [if_neg h2]
    · rw [if_neg h1]
      by_cases h2 : ∃ hh ∈ rest, r.name ∈ fab.switches
          ∧ connectionsTo fab (Node.host hh.name) r.name ≠ []
      · rw [if_pos h2]
        rcases h2 with ⟨hh, hmem, hcond⟩
        rw [if_pos ⟨hh, List.mem_cons_of_mem h hmem, hcond⟩]
      · rw [if_neg h2, if_neg (by
          intro hcon
          rcases hcon with ⟨hh, hmem, hcond⟩
          rcases List.mem_cons.mp hmem with h3 | h3
          · exact h1 (h3 ▸ hcond)
          · exact h2 ⟨hh, h3, hcond⟩)]

theorem dumpTopology_ok {fab : Fabric} {disc : List PortRec} {agent : String}
    {td : TopoData} (h : dumpTopology fab disc agent = Except.ok td) :
    td.nodes = tagEdges fab (baseNodes fab disc agent) := by
  unfold dumpTopology at h
  cases hb : buildLinkRecs fab disc (switchPairs fab.switches) with
  | error e =>
    rw [hb] at h
    exact Except.noConfusion h
  | ok l =>
    rw [hb] at h
    cases h
    rfl

/-- A switch has a directly attached host: some host, some link whose
endpoints are that host and the switch. -/
def hostAttached (fab : Fabric) (s : Node) : Prop :=
  ∃ hh ∈ fab.hosts, ∃ l ∈ fab.links,
    (l.node1 = Node.host hh.name ∧ l.node2 = s)
      ∨ (l.node1 = s ∧ l.node2 = Node.host hh.name)

theorem conn_ne_nil_iff (fab : Fabric) (a b : Node) :
    connectionsTo fab a b ≠ [] ↔
      ∃ l ∈ fab.links,
        (l.node1 = a ∧ l.node2 = b) ∨ (l.node1 = b ∧ l.node2 = a) := by
  unfold connectionsTo
  rw [Ne, List.filterMap_eq_nil_iff]
  push_neg
  constructor
  · rintro ⟨l, hl, hne⟩
    refine ⟨l, hl, ?_⟩
    by_cases h1 : l.node1 = a ∧ l.node2 = b
    · exact Or.inl h1
    by_cases h2 : l.node1 = b ∧ l.node2 = a
    · exact Or.inr h2
    exfalso
    apply hne
    rw [if_neg h1, if_neg h2]
  · rintro ⟨l, hl, hcase⟩
    refine ⟨l, hl, ?_⟩
    rcases hcase with h1 | h2
    · rw [if_pos h1]
      simp
    · by_cases h1 : l.node1 = a ∧ l.node2 = b
      · rw [if_pos h1]
        simp
      · rw [if_neg h1, if_pos h2]
        simp

theorem connRecs_error (disc : List PortRec) (s1 s2 : Node) :
    ∀ {conns : List (Nat × Nat)},
    (∃ c ∈ conns, epLookup disc s1 c.1 = none ∨ epLookup disc s2 c.2 = none) →
    connRecs disc s1 s2 conns = Except.error ExportError.TopologyExportIncomplete := by
  intro conns
  induction conns with
  | nil =>
    rintro ⟨c, hc, _⟩
    exact absurd hc (List.not_mem_nil c)
  | cons c rest ih =>
    rintro ⟨d, hd, hbad⟩
    cases h1 : epLookup disc s1 c.1 with
    | none =>
      simp only [connRecs, h1]
    | some i1 =>
      cases h2 : epLookup disc s2 c.2 with
      | none =>
        simp only [connRecs, h1, h2]
      | some i2 =>
        have hdr : d ∈ rest := by
          rcases List.mem_cons.mp hd with h3 | h3
          · subst h3
            rcases hbad with h4 | h4
            · rw [h1] at h4
              exact absurd h4 (Option.noConfusion)
            · rw [h2] at h4
              exact absurd h4 (Option.noConfusion)
          · exact h3
        have hr := ih ⟨d, hdr, hbad⟩
        simp only [connRecs, h1, h2, hr]

theorem buildLinkRecs_error (fab : Fabric) (disc : List PortRec) :
    ∀ {pairs : List (Node × Node)},
    (∃ p ∈ pairs, ∃ c ∈ connectionsTo fab p.1 p.2,
      epLookup disc p.1 c.1 = none ∨ epLookup disc p.2 c.2 = none) →
    buildLinkRecs fab disc pairs = Except.error ExportError.TopologyExportIncomplete := by
  intro pairs
  induction pairs with
  | nil =>
    rintro ⟨p, hp, _⟩
    exact absurd hp (List.not_mem_nil p)
  | cons p rest ih =>
    rintro ⟨q, hq, c, hc, hbad⟩
    obtain ⟨s1, s2⟩ := p
    cases hcr : connRecs disc s1 s2 (connectionsTo fab s1 s2) with
    | error e =>
      cases e
      simp only [buildLinkRecs, hcr]
    | ok cr =>
      have hqr : q ∈ rest := by
        rcases List.mem_cons.mp hq with h3 | h3
        · subst h3
          have := connRecs_error disc s1 s2 ⟨c, hc, hbad⟩
          rw [this] at hcr
          exact Except.noConfusion hcr
        · exact h3
      have hr := ih ⟨q, hqr, c, hc, hbad⟩
      simp only [buildLinkRecs, hcr, hr]

/-! Helpers for locating commands in the emitted traces. -/

theorem filter_flatMap_nil {α β : Type} (p : β → Bool) (g : α → List β) :
    ∀ (l : List α), (∀ i ∈ l, (g i).filter p = []) →
    (l.flatMap g).filter p = [] := by
  intro l
  induction l with
  | nil =>
    intro _
    rfl
  | cons x xs ih =>
    intro h
    rw [List.flatMap_cons, List.filter_append, h x (List.mem_cons_self x xs),
      ih (fun i hi => h i (List.mem_cons_of_mem x hi))]
    rfl

theorem filter_flatMap_single {α β : Type} [DecidableEq α] (p : β → Bool)
    (g : α → List β) {t : α} :
    ∀ (l : List α), l.Nodup → t ∈ l → (∀ i ∈ l, i ≠ t → (g i).filter p = []) →
    (l.flatMap g).filter p = (g t).filter p := by
  intro l
  induction l with
  | nil =>
    intro _ ht _
    exact absurd ht (List.not_mem_nil t)
  | cons x xs ih =>
    intro hnd ht hoff
    rw [List.flatMap_cons, List.filter_append]
    rcases List.mem_cons.mp ht with h1 | h1
    · have hrest : (xs.flatMap g).filter p = [] := by
        apply filter_flatMap_nil
        intro i hi
        apply hoff i (List.mem_cons_of_mem x hi)
        intro hc
        rw [hc, h1] at hi
        exact (List.nodup_cons.mp hnd).1 hi
      rw [hrest, List.append_nil, h1]
    · have hx : (g x).filter p = [] := by
        apply hoff x (List.mem_cons_self x xs)
        intro hc
        subst hc
        exact (List.nodup_cons.mp hnd).1 h1
      rw [hx, List.nil_append]
      exact ih (List.nodup_cons.mp hnd).2 h1
        (fun i hi hne => hoff i (List.mem_cons_of_mem x hi) hne)

theorem filter_flatMap_replicate {α β : Type} (p : β → Bool) (g : α → List β)
    (x : β) :
    ∀ (l : List α), (∀ i ∈ l, (g i).filter p = [x]) →
    (l.flatMap g).filter p = List.replicate l.length x := by
  intro l
  induction l with
  | nil =>
    intro _
    rfl
  | cons y ys ih =>
    intro h
    rw [List.flatMap_cons, List.filter_append, h y (List.mem_cons_self y ys),
      ih (fun i hi => h i (List.mem_cons_of_mem y hi)), List.length_cons,
      List.replicate_succ]
    rfl

/-- For positive spine, the slave list is exactly the uplink ports
1..spine. -/
theorem slavesList_eq {spine : Nat} (hs : 1 ≤ spine) :
    slavesList spine = List.range' 1 spine := by
  unfold slavesList
  rcases Nat.lt_or_ge 1 spine with h1 | h1
  · rw [if_pos h1]
    obtain ⟨m, rfl⟩ : ∃ m, spine = m + 2 := ⟨spine - 2, by omega⟩
    rw [List.range'_succ]
    rfl
  · have : spine = 1 := by omega
    subst this
    rfl

theorem filter_map_all {α β : Type} (p : β → Bool) (f : α → β) (l : List α)
    (h : ∀ i ∈ l, p (f i) = true) : (l.map f).filter p = l.map f := by
  rw [List.filter_eq_self]
  intro b hb
  rcases List.mem_map.mp hb with ⟨i, hi, rfl⟩
  exact h i hi

theorem filter_map_none {α β : Type} (p : β → Bool) (f : α → β) (l : List α)
    (h : ∀ i ∈ l, p (f i) = false) : (l.map f).filter p = [] := by
  rw [List.filter_eq_nil_iff]
  intro b hb
  rcases List.mem_map.mp hb with ⟨i, hi, rfl⟩
  rw [h i hi]
  exact Bool.false_ne_true

/-!
Claim theorems.
-/

/-- C1: for every spine, leaf, fanout at least 1, the built fabric has
exactly spine + leaf switches and leaf * fanout hosts, and on every leaf
switch the uplink ports to the spines are numbered 1..spine in
spine-index order (the links whose first endpoint is the leaf switch)
while the host-facing ports are numbered spine+1..spine+fanout (the
links whose second endpoint is the leaf switch). -/
theorem C1_fabric_shape (spine leaf fanout : Nat)
    (hs : 1 ≤ spine) (hl : 1 ≤ leaf) (hf : 1 ≤ fanout) :
    (LeafAndSpine spine leaf fanout).switches.length = spine + leaf
      ∧ (LeafAndSpine spine leaf fanout).hosts.length = leaf * fanout
      ∧ ∀ ls, ls < leaf →
        ((LeafAndSpine spine leaf fanout).links.filter
            (fun l => l.node1 == Node.sw (spine + ls + 1)))
          = (List.range spine).map (fun s =>
              { node1 := Node.sw (spine + ls + 1), port1 := s + 1,
                node2 := Node.sw (s + 1), port2 := ls + 1, bw := 10 })
        ∧ ((LeafAndSpine spine leaf fanout).links.filter
            (fun l => l.node2 == Node.sw (spine + ls + 1)))
          = (List.range fanout).map (fun f =>
              { node1 := Node.host (ls * fanout + f + 1), port1 := 0,
                node2 := Node.sw (spine + ls + 1), port2 := spine + f + 1,
                bw := 10 }) := by
  rw [LeafAndSpine_eq]
  refine ⟨specSwitches_length spine leaf, specHosts_length leaf fanout, ?_⟩
  intro ls hls
  constructor
  · show (specLinks spine leaf fanout).filter _ = _
    unfold specLinks
    rw [filter_flatMap_single _ (blockLinks spine fanout) (List.range leaf)
      (List.nodup_range leaf) (List.mem_range.mpr hls) ?off]
    case off =>
      intro i hi hne
      unfold blockLinks
      rw [List.filter_append]
      rw [filter_map_none _ _ _ (by
        intro s hsr
        show ((uplinkLink spine i s).node1 == Node.sw (spine + ls + 1)) = false
        rw [beq_eq_false_iff_ne]
        intro hc
        have := Node.sw.inj hc
        omega)]
      rw [filter_map_none _ _ _ (by
        intro f hfr
        show ((hostLink spine fanout i f).node1 == Node.sw (spine + ls + 1)) = false
        rw [beq_eq_false_iff_ne]
        intro hc
        exact Node.noConfusion hc)]
      rfl
    unfold blockLinks
    rw [List.filter_append]
    rw [filter_map_all _ _ _ (by
      intro s hsr
      show ((uplinkLink spine ls s).node1 == Node.sw (spine + ls + 1)) = true
      exact beq_self_eq_true _)]
    rw [filter_map_none _ _ _ (by
      intro f hfr
      show ((hostLink spine fanout ls f).node1 == Node.sw (spine + ls + 1)) = false
      rw [beq_eq_false_iff_ne]
      intro hc
      exact Node.noConfusion hc)]
    rw [List.append_nil]
    rfl
  · show (specLinks spine leaf fanout).filter _ = _
    unfold specLinks
    rw [filter_flatMap_single _ (blockLinks spine fanout) (List.range leaf)
      (List.nodup_range leaf) (List.mem_range.mpr hls) ?off2]
    case off2 =>
      intro i hi hne
      unfold blockLinks
      rw [List.filter_append]
      rw [filter_map_none _ _ _ (by
        intro s hsr
        have hsr' := List.mem_range.mp hsr
        show ((uplinkLink spine i s).node2 == Node.sw (spine + ls + 1)) = false
        rw [beq_eq_false_iff_ne]
        intro hc
        have := Node.sw.inj hc
        omega)]
      rw [filter_map_none _ _ _ (by
        intro f hfr
        show ((hostLink spine fanout i f).node2 == Node.sw (spine + ls + 1)) = false
        rw [beq_eq_false_iff_ne]
        intro hc
        have := Node.sw.inj hc
        omega)]
      rfl
    unfold blockLinks
    rw [List.filter_append]
    rw [filter_map_none _ _ _ (by
      intro s hsr
      have hsr' := List.mem_range.mp hsr
      show ((uplinkLink spine ls s).node2 == Node.sw (spine + ls + 1)) = false
      rw [beq_eq_false_iff_ne]
      intro hc
      have := Node.sw.inj hc
      omega)]
    rw [filter_map_all _ _ _ (by
      intro f hfr
      show ((hostLink spine fanout ls f).node2 == Node.sw (spine + ls + 1)) = true
      exact beq_self_eq_true _)]
    rw [List.nil_append]
    rfl

/-- C1 witness at spine=2, leaf=2, fanout=2. -/
theorem C1_witness :
    (LeafAndSpine 2 2 2).switches.length = 2 + 2
      ∧ (LeafAndSpine 2 2 2).hosts.length = 2 * 2
      ∧ ((LeafAndSpine 2 2 2).links.filter (fun l => l.node1 == Node.sw 3))
          = (List.range 2).map (fun s =>
              { node1 := Node.sw 3, port1 := s + 1,
                node2 := Node.sw (s + 1), port2 := 1, bw := 10 })
      ∧ ((LeafAndSpine 2 2 2).links.filter (fun l => l.node2 == Node.sw 3))
          = (List.range 2).map (fun f =>
              { node1 := Node.host (f + 1), port1 := 0,
                node2 := Node.sw 3, port2 := 2 + f + 1, bw := 10 }) := by
  have h := C1_fabric_shape 2 2 2 (by decide) (by decide) (by decide)
  exact ⟨h.1, h.2.1, (h.2.2 0 (by decide)).1, (h.2.2 0 (by decide)).2⟩

theorem finalHosts_pairwise (leaf fanout : Nat) :
    ((List.range leaf).flatMap (fun ls => (List.range fanout).map (fun f =>
        ({ name := ls * fanout + f + 1,
           ip := { o1 := 10, o2 := 0, o3 := ls, o4 := f + 1, maskBits := 16 },
           mac := some (ls, f + 1) } : Host)))).Pairwise
      (fun h1 h2 => h1.ip ≠ h2.ip ∧ h1.mac ≠ h2.mac) := by
  induction leaf with
  | zero => simp
  | succ n ih =>
    rw [List.range_succ, List.flatMap_append, List.flatMap_cons, List.flatMap_nil,
      List.append_nil]
    rw [List.pairwise_append]
    refine ⟨ih, ?_, ?_⟩
    · rw [List.pairwise_map]
      have hlt := List.pairwise_lt_range fanout
      apply hlt.imp
      intro a b hab
      constructor
      · intro hc
        dsimp only at hc
        injection hc with h1 h2 h3 h4 h5
        omega
      · intro hc
        dsimp only at hc
        injection hc with h1
        injection h1 with h2 h3
        omega
    · intro a ha b hb
      rcases List.mem_flatMap.mp ha with ⟨ls, hlsm, hma⟩
      rcases List.mem_map.mp hma with ⟨f, hfm, rfl⟩
      rcases List.mem_map.mp hb with ⟨g, hgm, rfl⟩
      have hlsn := List.mem_range.mp hlsm
      constructor
      · intro hc
        dsimp only at hc
        injection hc with h1 h2 h3 h4 h5
        omega
      · intro hc
        dsimp only at hc
        injection hc with h1
        injection h1 with h2 h3
        omega

/-- C2: each host at leaf index ls and host index f has IP
10.0.ls.(f+1) with a /16 mask from the builder and, after the unicast
synthesizer ran, MAC 00:04:00:00:ls:(f+1) (modelled as the low-octet
pair); under the claimed bounds leaf < 255 and fanout < 255 no two
distinct hosts share an IP or a MAC. -/
theorem C2_addressing (spine leaf fanout : Nat)
    (hl : leaf < 255) (hf : fanout < 255) :
    (∀ ls, ls < leaf → ∀ f, f < fanout →
      ({ name := ls * fanout + f + 1,
         ip := { o1 := 10, o2 := 0, o3 := ls, o4 := f + 1, maskBits := 16 },
         mac := some (ls, f + 1) } : Host)
        ∈ ((configUnicast spine leaf fanout (LeafAndSpine spine leaf fanout)).1).hosts)
    ∧ ((configUnicast spine leaf fanout (LeafAndSpine spine leaf fanout)).1).hosts.Pairwise
        (fun h1 h2 => h1.ip ≠ h2.ip ∧ h1.mac ≠ h2.mac) := by
  rw [configUnicast_hosts]
  constructor
  · intro ls hls f hf'
    apply List.mem_flatMap.mpr
    refine ⟨ls, List.mem_range.mpr hls, ?_⟩
    exact List.mem_map.mpr ⟨f, List.mem_range.mpr hf', rfl⟩
  · exact finalHosts_pairwise leaf fanout

/-- C2 witness at spine=1, leaf=2, fanout=2, host (0, 1). -/
theorem C2_witness :
    (({ name := 2,
        ip := { o1 := 10, o2 := 0, o3 := 0, o4 := 2, maskBits := 16 },
        mac := some (0, 2) } : Host)
      ∈ ((configUnicast 1 2 2 (LeafAndSpine 1 2 2)).1).hosts)
    ∧ ((configUnicast 1 2 2 (LeafAndSpine 1 2 2)).1).hosts.Pairwise
        (fun h1 h2 => h1.ip ≠ h2.ip ∧ h1.mac ≠ h2.mac) := by
  have h := C2_addressing 1 2 2 (by decide) (by decide)
  exact ⟨h.1 0 (by decide) 1 (by decide), h.2⟩

/-- Is the command a noflood port-attribute change on switch n. -/
def isNofloodFor (n : Nat) : Cmd → Bool
  | .modPort m _ attr => m == n && attr == nofloodAttr
  | _ => false

/-- Is the command the multicast flood rule on switch n. -/
def isFloodFor (n : Nat) : Cmd → Bool
  | .addFlow m { fmatch := .multicastBit, priority := _, action := .flood } => m == n
  | _ => false

/-- Is the command a multipath bundle rule on switch n. -/
def isMultipathFor (n : Nat) : Cmd → Bool
  | .addFlow m { fmatch := _, priority := _, action := .bundle _ _ } => m == n
  | _ => false

/-- C3: the flood-control synthesizer issues noflood on each leaf switch
for exactly the uplink ports 2..spine (range' 2 (spine-1)), never for
port 1 and never on a spine switch, and every switch of the fabric
receives exactly one multicast flood rule; for spine = 1 the noflood
list is empty while the flood rule is still present. -/
theorem C3_flood_control (spine leaf fanout : Nat) :
    (∀ ls, ls < leaf →
      (configMulticast spine leaf fanout).filter (isNofloodFor (spine + ls + 1))
        = (List.range' 2 (spine - 1)).map (fun p =>
            Cmd.modPort (spine + ls + 1) p nofloodAttr))
    ∧ (∀ s, s < spine →
      (configMulticast spine leaf fanout).filter (isNofloodFor (s + 1)) = [])
    ∧ (∀ k, k < spine + leaf →
      (configMulticast spine leaf fanout).filter (isFloodFor (k + 1))
        = [Cmd.addFlow (k + 1)
            { fmatch := .multicastBit, priority := 400, action := .flood }]) := by
  rw [configMulticast_eq]
  refine ⟨?_, ?_, ?_⟩
  · intro ls hls
    rw [List.filter_append]
    rw [filter_map_none (isNofloodFor (spine + ls + 1)) (fun s => Cmd.addFlow (s + 1) { fmatch := .multicastBit, priority := 400, action := .flood }) (List.range spine) (fun s _ => rfl)]
    rw [List.append_nil]
    rw [filter_flatMap_single _ (mcastBlock spine) (List.range leaf)
      (List.nodup_range leaf) (List.mem_range.mpr hls) (by
        intro i hi hne
        unfold mcastBlock
        rw [List.filter_append]
        rw [filter_map_none _ _ _ (by
          intro p hp
          show ((spine + i + 1 == spine + ls + 1) && (nofloodAttr == nofloodAttr))
            = false
          rw [beq_eq_false_iff_ne.mpr (by
            intro hc
            apply hne
            omega)]
          rfl)]
        rfl)]
    unfold mcastBlock
    rw [List.filter_append]
    rw [filter_map_all _ _ _ (by
      intro p hp
      show ((spine + ls + 1 == spine + ls + 1) && (nofloodAttr == nofloodAttr))
        = true
      rw [beq_self_eq_true, beq_self_eq_true]
      rfl)]
    rw [show (List.filter (isNofloodFor (spine + ls + 1))
        [Cmd.addFlow (spine + ls + 1)
          { fmatch := .multicastBit, priority := 400, action := .flood }]) = []
      from rfl]
    rw [List.append_nil]
  · intro s hs
    rw [List.filter_append]
    rw [filter_map_none (isNofloodFor (s + 1)) (fun s => Cmd.addFlow (s + 1) { fmatch := .multicastBit, priority := 400, action := .flood }) (List.range spine) (fun i _ => rfl)]
    rw [List.append_nil]
    apply filter_flatMap_nil
    intro i hi
    unfold mcastBlock
    rw [List.filter_append]
    rw [filter_map_none _ _ _ (by
      intro p hp
      show ((spine + i + 1 == s + 1) && (nofloodAttr == nofloodAttr)) = false
      rw [beq_eq_false_iff_ne.mpr (by omega)]
      rfl)]
    rfl
  · intro k hk
    rcases Nat.lt_or_ge k spine with hks | hks
    · rw [List.filter_append]
      rw [filter_flatMap_nil _ _ _ (by
        intro i hi
        unfold mcastBlock
        rw [List.filter_append]
        rw [filter_map_none (isFloodFor (k + 1)) (fun p => Cmd.modPort (spine + i + 1) p nofloodAttr) (List.range' 2 (spine - 1)) (fun p _ => rfl)]
        have hpx : isFloodFor (k + 1)
            (Cmd.addFlow (spine + i + 1)
              { fmatch := .multicastBit, priority := 400, action := .flood })
            = false := by
          show (spine + i + 1 == k + 1) = false
          rw [beq_eq_false_iff_ne]
          omega
        simp [hpx])]
      rw [List.nil_append, List.filter_map]
      have hcong : (List.range spine).filter
          ((isFloodFor (k + 1)) ∘ (fun s =>
            Cmd.addFlow (s + 1)
              { fmatch := .multicastBit, priority := 400, action := .flood }))
          = (List.range spine).filter (fun s => s == k) := by
        apply List.filter_congr
        intro s hsr
        show (s + 1 == k + 1) = (s == k)
        by_cases hsk : s = k
        · subst hsk
          rw [beq_self_eq_true, beq_self_eq_true]
        · rw [beq_eq_false_iff_ne.mpr (by omega),
            beq_eq_false_iff_ne.mpr hsk]
      rw [hcong, range_filter_beq hks]
      rfl
    · rw [List.filter_append]
      rw [filter_map_none (isFloodFor (k + 1)) _ _ (by
        intro s hsr
        have hsr' := List.mem_range.mp hsr
        show (s + 1 == k + 1) = false
        rw [beq_eq_false_iff_ne]
        omega)]
      rw [List.append_nil]
      rw [filter_flatMap_single _ (mcastBlock spine) (List.range leaf)
        (List.nodup_range leaf) (List.mem_range.mpr (show k - spine < leaf by omega))
        (by
          intro i hi hne
          unfold mcastBlock
          rw [List.filter_append]
          rw [filter_map_none (isFloodFor (k + 1)) (fun p => Cmd.modPort (spine + i + 1) p nofloodAttr) (List.range' 2 (spine - 1)) (fun p _ => rfl)]
          have hpx : isFloodFor (k + 1)
              (Cmd.addFlow (spine + i + 1)
                { fmatch := .multicastBit, priority := 400, action := .flood })
              = false := by
            show (spine + i + 1 == k + 1) = false
            rw [beq_eq_false_iff_ne]
            intro hc
            apply hne
            omega
          simp [hpx])]
      unfold mcastBlock
      rw [List.filter_append]
      rw [filter_map_none (isFloodFor (k + 1)) (fun p => Cmd.modPort (spine + (k - spine) + 1) p nofloodAttr) (List.range' 2 (spine - 1)) (fun p _ => rfl)]
      rw [List.nil_append]
      have hke : spine + (k - spine) + 1 = k + 1 := by omega
      rw [hke]
      have hpt : isFloodFor (k + 1)
          (Cmd.addFlow (k + 1)
            { fmatch := .multicastBit, priority := 400, action := .flood })
          = true := beq_self_eq_true (k + 1)
      simp [hpt]

/-- C3 witness at spine=1, leaf=2, fanout=2: the disable loop is empty
on leaf switch 2, no noflood is issued to spine switch 1, and switch 1
still receives exactly one flood rule. -/
theorem C3_witness :
    ((configMulticast 1 2 2).filter (isNofloodFor 2) = [])
      ∧ ((configMulticast 1 2 2).filter (isNofloodFor 1) = [])
      ∧ ((configMulticast 1 2 2).filter (isFloodFor 1)
          = [Cmd.addFlow 1
              { fmatch := .multicastBit, priority := 400, action := .flood }]) := by
  have h := C3_flood_control 1 2 2
  exact ⟨h.1 0 (by decide), h.2.1 0 (by decide), h.2.2 0 (by decide)⟩

/-- C4 counterexample: at spine=2, leaf=2, fanout=2 the unicast
synthesizer emits two multipath commands to leaf switch 3, not exactly
one: the multipath rule sits inside the per-host loop, so it is emitted
once per host rather than once per leaf switch. -/
theorem C4_counterexample :
    ((configUnicast 2 2 2 (LeafAndSpine 2 2 2)).2.filter (isMultipathFor 3)).length = 2
      ∧ ((configUnicast 2 2 2 (LeafAndSpine 2 2 2)).2.filter
          (isMultipathFor 3)).length ≠ 1 := by
  constructor
  · decide
  · decide

/-- C4 amended: for every leaf switch the unicast synthesizer emits the
multipath rule once per attached host — fanout identical copies of the
priority-300 bundle rule over the uplink ports 1..spine (so the set of
distinct multipath rules per leaf switch has exactly one element); for
spine = 1 the rule is still emitted, with the single-member slave list. -/
theorem C4_amended (spine leaf fanout : Nat) (fab : Fabric) (hs : 1 ≤ spine) :
    ∀ ls, ls < leaf →
    ((configUnicast spine leaf fanout fab).2.filter (isMultipathFor (spine + ls + 1)))
      = List.replicate fanout
          (Cmd.addFlow (spine + ls + 1)
            { fmatch := .any, priority := 300,
              action := .bundle (ls + 1) (List.range' 1 spine) }) := by
  intro ls hls
  rw [configUnicast_eq]
  show (ucastCmds spine leaf fanout).filter _ = _
  unfold ucastCmds
  rw [filter_flatMap_single _ _ (List.range leaf)
    (List.nodup_range leaf) (List.mem_range.mpr hls) (by
      intro i hi hne
      apply filter_flatMap_nil
      intro f hf
      unfold ucastHostCmds
      rw [show ([Cmd.addFlow (spine + i + 1)
            { fmatch := .dstMac (i, f + 1), priority := 500,
              action := .output (f + 1 + spine) },
          Cmd.addFlow (spine + i + 1)
            { fmatch := .any, priority := 300,
              action := .bundle (i + 1) (slavesList spine) }]
          ++ (List.range spine).map (fun s =>
               Cmd.addFlow (s + 1)
                 { fmatch := .dstMac (i, f + 1), priority := 500,
                   action := .output (i + 1) }))
        = [Cmd.addFlow (spine + i + 1)
            { fmatch := .dstMac (i, f + 1), priority := 500,
              action := .output (f + 1 + spine) }]
          ++ ([Cmd.addFlow (spine + i + 1)
              { fmatch := .any, priority := 300,
                action := .bundle (i + 1) (slavesList spine) }]
            ++ (List.range spine).map (fun s =>
                 Cmd.addFlow (s + 1)
                   { fmatch := .dstMac (i, f + 1), priority := 500,
                     action := .output (i + 1) })) from rfl]
      rw [List.filter_append, List.filter_append]
      have h1 : (List.filter (isMultipathFor (spine + ls + 1))
          [Cmd.addFlow (spine + i + 1)
            { fmatch := .dstMac (i, f + 1), priority := 500,
              action := .output (f + 1 + spine) }]) = [] := rfl
      have h2 : (List.filter (isMultipathFor (spine + ls + 1))
          [Cmd.addFlow (spine + i + 1)
            { fmatch := .any, priority := 300,
              action := .bundle (i + 1) (slavesList spine) }]) = [] := by
        have hpx : isMultipathFor (spine + ls + 1)
            (Cmd.addFlow (spine + i + 1)
              { fmatch := .any, priority := 300,
                action := .bundle (i + 1) (slavesList spine) }) = false := by
          show (spine + i + 1 == spine + ls + 1) = false
          rw [beq_eq_false_iff_ne]
          intro hc
          apply hne
          omega
        simp [hpx]
      have h3 : (List.filter (isMultipathFor (spine + ls + 1))
          ((List.range spine).map (fun s =>
            Cmd.addFlow (s + 1)
              { fmatch := .dstMac (i, f + 1), priority := 500,
                action := .output (i + 1) }))) = [] :=
        filter_map_none _ _ _ (fun s _ => rfl)
      rw [h1, h2, h3]
      rfl)]
  rw [filter_flatMap_replicate _ _
    (Cmd.addFlow (spine + ls + 1)
      { fmatch := .any, priority := 300,
        action := .bundle (ls + 1) (slavesList spine) })
    (List.range fanout) (by
      intro f hf
      unfold ucastHostCmds
      rw [show ([Cmd.addFlow (spine + ls + 1)
            { fmatch := .dstMac (ls, f + 1), priority := 500,
              action := .output (f + 1 + spine) },
          Cmd.addFlow (spine + ls + 1)
            { fmatch := .any, priority := 300,
              action := .bundle (ls + 1) (slavesList spine) }]
          ++ (List.range spine).map (fun s =>
               Cmd.addFlow (s + 1)
                 { fmatch := .dstMac (ls, f + 1), priority := 500,
                   action := .output (ls + 1) }))
        = [Cmd.addFlow (spine + ls + 1)
            { fmatch := .dstMac (ls, f + 1), priority := 500,
              action := .output (f + 1 + spine) }]
          ++ ([Cmd.addFlow (spine + ls + 1)
              { fmatch := .any, priority := 300,
                action := .bundle (ls + 1) (slavesList spine) }]
            ++ (List.range spine).map (fun s =>
                 Cmd.addFlow (s + 1)
                   { fmatch := .dstMac (ls, f + 1), priority := 500,
                     action := .output (ls + 1) })) from rfl]
      rw [List.filter_append, List.filter_append]
      have h1 : (List.filter (isMultipathFor (spine + ls + 1))
          [Cmd.addFlow (spine + ls + 1)
            { fmatch := .dstMac (ls, f + 1), priority := 500,
              action := .output (f + 1 + spine) }]) = [] := rfl
      have h2 : (List.filter (isMultipathFor (spine + ls + 1))
          [Cmd.addFlow (spine + ls + 1)
            { fmatch := .any, priority := 300,
              action := .bundle (ls + 1) (slavesList spine) }])
          = [Cmd.addFlow (spine + ls + 1)
              { fmatch := .any, priority := 300,
                action := .bundle (ls + 1) (slavesList spine) }] := by
        have hpx : isMultipathFor (spine + ls + 1)
            (Cmd.addFlow (spine + ls + 1)
              { fmatch := .any, priority := 300,
                action := .bundle (ls + 1) (slavesList spine) }) = true :=
          beq_self_eq_true (spine + ls + 1)
        simp [hpx]
      have h3 : (List.filter (isMultipathFor (spine + ls + 1))
          ((List.range spine).map (fun s =>
            Cmd.addFlow (s + 1)
              { fmatch := .dstMac (ls, f + 1), priority := 500,
                action := .output (ls + 1) }))) = [] :=
        filter_map_none _ _ _ (fun s _ => rfl)
      rw [h1, h2, h3]
      rfl)]
  rw [List.length_range, slavesList_eq hs]

/-- C4 amended witness at spine=1, leaf=2, fanout=2, leaf switch 2. -/
theorem C4_amended_witness :
    ((configUnicast 1 2 2 (LeafAndSpine 1 2 2)).2.filter (isMultipathFor 2))
      = List.replicate 2
          (Cmd.addFlow 2
            { fmatch := .any, priority := 300,
              action := .bundle 1 (List.range' 1 1) }) :=
  C4_amended 1 2 2 (LeafAndSpine 1 2 2) (by decide) 0 (by decide)

/-- C5: for every leaf index ls and host index f, the unicast
synthesizer emits on the leaf switch an exact-match rule on the host
MAC at priority 500 outputting on port f+1+spine, and that port is
exactly the host's leaf-side port in the built fabric. -/
theorem C5_local_host_rules (spine leaf fanout : Nat) :
    ∀ ls, ls < leaf → ∀ f, f < fanout →
    (Cmd.addFlow (spine + ls + 1)
        { fmatch := .dstMac (ls, f + 1), priority := 500,
          action := .output (f + 1 + spine) }
      ∈ (configUnicast spine leaf fanout (LeafAndSpine spine leaf fanout)).2)
    ∧ ({ node1 := Node.host (ls * fanout + f + 1), port1 := 0,
         node2 := Node.sw (spine + ls + 1), port2 := f + 1 + spine,
         bw := 10 } : Link)
      ∈ (LeafAndSpine spine leaf fanout).links := by
  intro ls hls f hf
  constructor
  · rw [configUnicast_eq]
    show _ ∈ ucastCmds spine leaf fanout
    unfold ucastCmds
    apply List.mem_flatMap.mpr
    refine ⟨ls, List.mem_range.mpr hls, ?_⟩
    apply List.mem_flatMap.mpr
    refine ⟨f, List.mem_range.mpr hf, ?_⟩
    unfold ucastHostCmds
    apply List.mem_append.mpr
    exact Or.inl (List.mem_cons_self _ _)
  · rw [LeafAndSpine_eq]
    show _ ∈ specLinks spine leaf fanout
    apply mem_specLinks.mpr
    refine ⟨ls, hls, Or.inr ⟨f, hf, ?_⟩⟩
    unfold hostLink
    have : f + 1 + spine = spine + f + 1 := by omega
    rw [this]

/-- C5 witness at spine=2, leaf=2, fanout=2, leaf 0, host 1. -/
theorem C5_witness :
    (Cmd.addFlow 3
        { fmatch := .dstMac (0, 2), priority := 500, action := .output 4 }
      ∈ (configUnicast 2 2 2 (LeafAndSpine 2 2 2)).2)
    ∧ ({ node1 := Node.host 2, port1 := 0, node2 := Node.sw 3, port2 := 4,
         bw := 10 } : Link)
      ∈ (LeafAndSpine 2 2 2).links :=
  C5_local_host_rules 2 2 2 0 (by decide) 1 (by decide)

/-- C6: for every host (ls, f) and every spine index s, the unicast
synthesizer emits on spine switch s+1 an exact-match rule on the host
MAC at priority 500 outputting on port ls+1, and in the built fabric
the spine's port ls+1 is exactly the one on its link to leaf switch
spine+ls+1 (spine ports go to leaves in leaf-index order). -/
theorem C6_spine_rules (spine leaf fanout : Nat) :
    ∀ ls, ls < leaf → ∀ f, f < fanout → ∀ s, s < spine →
    (Cmd.addFlow (s + 1)
        { fmatch := .dstMac (ls, f + 1), priority := 500,
          action := .output (ls + 1) }
      ∈ (configUnicast spine leaf fanout (LeafAndSpine spine leaf fanout)).2)
    ∧ ({ node1 := Node.sw (spine + ls + 1), port1 := s + 1,
         node2 := Node.sw (s + 1), port2 := ls + 1, bw := 10 } : Link)
      ∈ (LeafAndSpine spine leaf fanout).links := by
  intro ls hls f hf s hs
  constructor
  · rw [configUnicast_eq]
    show _ ∈ ucastCmds spine leaf fanout
    unfold ucastCmds
    apply List.mem_flatMap.mpr
    refine ⟨ls, List.mem_range.mpr hls, ?_⟩
    apply List.mem_flatMap.mpr
    refine ⟨f, List.mem_range.mpr hf, ?_⟩
    unfold ucastHostCmds
    apply List.mem_append.mpr
    refine Or.inr (List.mem_map.mpr ⟨s, List.mem_range.mpr hs, rfl⟩)
  · rw [LeafAndSpine_eq]
    show _ ∈ specLinks spine leaf fanout
    apply mem_specLinks.mpr
    exact ⟨ls, hls, Or.inl ⟨s, hs, rfl⟩⟩

/-- C6 witness at spine=2, leaf=2, fanout=2, host (1, 0), spine 1. -/
theorem C6_witness :
    (Cmd.addFlow 2
        { fmatch := .dstMac (1, 1), priority := 500, action := .output 2 }
      ∈ (configUnicast 2 2 2 (LeafAndSpine 2 2 2)).2)
    ∧ ({ node1 := Node.sw 4, port1 := 2, node2 := Node.sw 2, port2 := 2,
         bw := 10 } : Link)
      ∈ (LeafAndSpine 2 2 2).links :=
  C6_spine_rules 2 2 2 1 (by decide) 0 (by decide) 1 (by decide)

/-- C7 counterexample: the claim says construction at leaf=255 or
fanout=255 fails with an InvalidTopologySize error, but the constructor
performs no size validation at all — no such error exists in the code —
and at the boundary it succeeds, building the full fabric: with
spine=1, leaf=255, fanout=1 it returns 256 switches, and with spine=1,
leaf=1, fanout=255 it returns 255 hosts. -/
theorem C7_counterexample :
    (LeafAndSpine 1 255 1).switches.length = 256
      ∧ (LeafAndSpine 1 1 255).hosts.length = 255 := by
  constructor
  · rw [LeafAndSpine_eq]
    rw [specSwitches_length]
  · rw [LeafAndSpine_eq]
    rw [specHosts_length]

/-- C7 amended: the constructor is total and performs no validation of
the sizing parameters; any values, including the documented-forbidden
boundary leaf=255 or fanout=255, are accepted and the full fabric is
built (the constraint is only stated in a source comment, unenforced,
and no InvalidTopologySize error exists). -/
theorem C7_amended (spine leaf fanout : Nat) :
    (LeafAndSpine spine 255 fanout).switches.length = spine + 255
      ∧ (LeafAndSpine spine leaf 255).hosts.length = leaf * 255 := by
  constructor
  · rw [LeafAndSpine_eq]
    exact specSwitches_length spine 255
  · rw [LeafAndSpine_eq]
    exact specHosts_length leaf 255

/-- C8: in a successfully produced snapshot, a switch record carries
the edge tag if at least one host is directly attached to that switch
in the fabric, and carries no tag at all if no host is attached. -/
theorem C8_edge_tag (fab : Fabric) (disc : List PortRec) (agent : String)
    (td : TopoData) (h : dumpTopology fab disc agent = Except.ok td) :
    ∀ r ∈ td.nodes,
      (hostAttached fab r.name → r.tag = some edgeTag)
        ∧ (¬ hostAttached fab r.name → r.tag = none) := by
  intro r hr
  rw [dumpTopology_ok h] at hr
  unfold tagEdges at hr
  rw [tagEdges_eq fab fab.hosts (baseNodes fab disc agent)] at hr
  rcases List.mem_map.mp hr with ⟨r0, hr0, heq⟩
  unfold baseNodes at hr0
  rcases List.mem_map.mp hr0 with ⟨s, hsmem, rfl⟩
  by_cases hcond : ∃ hh ∈ fab.hosts,
      ({ name := s, agent := agent,
         ports := disc.filter (fun e => e.owner == s),
         tag := none } : NodeRec).name ∈ fab.switches
        ∧ connectionsTo fab (Node.host hh.name)
            ({ name := s, agent := agent,
               ports := disc.filter (fun e => e.owner == s),
               tag := none } : NodeRec).name ≠ []
  · rw [if_pos hcond] at heq
    rw [← heq]
    constructor
    · intro _
      rfl
    · intro hnot
      exfalso
      apply hnot
      rcases hcond with ⟨hh, hm, _, hconn⟩
      rcases (conn_ne_nil_iff fab (Node.host hh.name) s).mp hconn with ⟨l, hlm, hcase⟩
      exact ⟨hh, hm, l, hlm, hcase⟩
  · rw [if_neg hcond] at heq
    rw [← heq]
    constructor
    · intro hatt
      exfalso
      apply hcond
      rcases hatt with ⟨hh, hm, l, hlm, hcase⟩
      exact ⟨hh, hm, hsmem, (conn_ne_nil_iff fab (Node.host hh.name) s).mpr
        ⟨l, hlm, hcase⟩⟩
    · intro _
      rfl

/-- Concrete data for the C8 witness: the fabric with one spine, one
leaf, one host, full interface discovery, and the snapshot it yields. -/
def agentW : String := "192.0.2.1"

def discW : List PortRec :=
  [{ owner := Node.sw 1, port := 1, ifindex := 10 },
   { owner := Node.sw 2, port := 1, ifindex := 11 }]

def tdW : TopoData :=
  { nodes :=
      [{ name := Node.sw 1, agent := agentW,
         ports := [{ owner := Node.sw 1, port := 1, ifindex := 10 }],
         tag := none },
       { name := Node.sw 2, agent := agentW,
         ports := [{ owner := Node.sw 2, port := 1, ifindex := 11 }],
         tag := some edgeTag }],
    links :=
      [{ node1 := Node.sw 1, port1 := 1, ifindex1 := 10,
         node2 := Node.sw 2, port2 := 1, ifindex2 := 11 }] }

/-- C8 witness: on the 1-spine 1-leaf 1-host fabric the snapshot tags
the leaf switch (which has the host) edge and leaves the spine switch
untagged. -/
theorem C8_witness :
    ({ name := Node.sw 2, agent := agentW,
       ports := [{ owner := Node.sw 2, port := 1, ifindex := 11 }],
       tag := some edgeTag } : NodeRec).tag = some edgeTag
    ∧ ({ name := Node.sw 1, agent := agentW,
         ports := [{ owner := Node.sw 1, port := 1, ifindex := 10 }],
         tag := none } : NodeRec).tag = none := by
  have h := C8_edge_tag (LeafAndSpine 1 1 1) discW agentW tdW (by rfl)
  constructor
  · exact (h _ (by decide)).1 (by
      unfold hostAttached
      decide)
  · exact (h _ (by decide)).2 (by
      unfold hostAttached
      decide)

/-- C9: when some scanned switch pair has a connection whose endpoint
ifindex was not discovered, the export fails with
TopologyExportIncomplete (the lookup failure aborts the export) rather
than skipping the link. -/
theorem C9_missing_ifindex (fab : Fabric) (disc : List PortRec) (agent : String)
    (h : ∃ p ∈ switchPairs fab.switches, ∃ c ∈ connectionsTo fab p.1 p.2,
      epLookup disc p.1 c.1 = none ∨ epLookup disc p.2 c.2 = none) :
    dumpTopology fab disc agent
      = Except.error ExportError.TopologyExportIncomplete := by
  unfold dumpTopology
  rw [buildLinkRecs_error fab disc h]

/-- C9 witness: exporting the 1-spine 1-leaf fabric with an empty
discovery list fails with TopologyExportIncomplete. -/
theorem C9_witness :
    dumpTopology (LeafAndSpine 1 1 1) [] agentW
      = Except.error ExportError.TopologyExportIncomplete :=
  C9_missing_ifindex (LeafAndSpine 1 1 1) [] agentW (by decide)

/-- C10 counterexample: running the unicast synthesizer on the freshly
built fabric changes the hosts' MAC fields (setMAC), so the fabric is
not unchanged by the synthesis step. -/
theorem C10_counterexample :
    ((configUnicast 2 2 2 (LeafAndSpine 2 2 2)).1).hosts.map Host.mac
      ≠ (LeafAndSpine 2 2 2).hosts.map Host.mac := by
  decide

/-- C10 amended: the flood-control synthesizer takes no fabric at all
and the exporter only reads it, and the unicast synthesizer mutates
exactly the host MAC fields: switches, links, and every host's name and
IP are unchanged by it. -/
theorem C10_amended (spine leaf fanout : Nat) (fab : Fabric) :
    ((configUnicast spine leaf fanout fab).1).switches = fab.switches
      ∧ ((configUnicast spine leaf fanout fab).1).links = fab.links
      ∧ ((configUnicast spine leaf fanout fab).1).hosts.map (fun h => (h.name, h.ip))
          = fab.hosts.map (fun h => (h.name, h.ip)) := by
  rw [configUnicast_eq, macAssign_eq]
  refine ⟨rfl, rfl, ?_⟩
  show (fab.hosts.map (updAll leaf fanout)).map (fun h => (h.name, h.ip)) = _
  rw [List.map_map]
  apply List.map_congr_left
  intro h _
  show ((updAll leaf fanout h).name, (updAll leaf fanout h).ip) = (h.name, h.ip)
  rcases updAll_name_ip leaf fanout h with ⟨h1, h2⟩
  rw [h1, h2]

end SflowRt
